import Mathlib

/-!
Verification development for the off-chain garbling toolkit of a two-party
secure-comparison protocol (Yao millionaires with cut-and-choose).

Bytes are modelled as `Nat` values below 256 and byte strings as `List Nat`.
The Keccak-256 hash used throughout the toolkit is implemented concretely
(sponge over Keccak-f[1600], rate 136, legacy 0x01 padding).
-/

namespace Yao

/-- 64-bit left rotation over `Nat`, reducing modulo `2 ^ 64`. -/
def rotl64 (x n : Nat) : Nat :=
  ((x <<< n) ||| (x >>> (64 - n))) % (2 ^ 64)

/-- Keccak round constants for the 24 rounds of Keccak-f[1600]. -/
def keccakRC : List Nat :=
  [1, 32898, 9223372036854808714,
   9223372039002292224, 32907, 2147483649,
   9223372039002292353, 9223372036854808585, 138,
   136, 2147516425, 2147483658,
   2147516555, 9223372036854775947, 9223372036854808713,
   9223372036854808579, 9223372036854808578, 9223372036854775936,
   32778, 9223372039002259466, 9223372039002292353,
   9223372036854808704, 2147483649, 9223372039002292232]

/-- Rho-step rotation offsets, indexed by lane index `x + 5*y`. -/
def rhoOff : List Nat :=
  [0, 1, 62, 28, 27, 36, 44, 6, 55, 20, 3, 10] ++
  [43, 25, 39, 41, 45, 15, 21, 8, 18, 2, 61, 56, 14]

/-- Theta step of Keccak-f. -/
def thetaStep (s : List Nat) : List Nat :=
  let c := List.ofFn fun x : Fin 5 =>
    (((s.getD x.1 0 ^^^ s.getD (x.1 + 5) 0) ^^^ s.getD (x.1 + 10) 0) ^^^
      s.getD (x.1 + 15) 0) ^^^ s.getD (x.1 + 20) 0
  let d := List.ofFn fun x : Fin 5 =>
    c.getD ((x.1 + 4) % 5) 0 ^^^ rotl64 (c.getD ((x.1 + 1) % 5) 0) 1
  List.ofFn fun i : Fin 25 => s.getD i.1 0 ^^^ d.getD (i.1 % 5) 0

/-- Rho step: rotate each lane by its fixed offset. -/
def rhoStep (s : List Nat) : List Nat :=
  List.ofFn fun i : Fin 25 => rotl64 (s.getD i.1 0) (rhoOff.getD i.1 0)

/-- Source lane index for the pi permutation: output lane `x + 5*y`
receives input lane `(x + 3*y) % 5 + 5*x`. -/
def piSrc (i : Nat) : Nat :=
  ((i % 5) + 3 * (i / 5)) % 5 + 5 * (i % 5)

/-- Pi step: permute lanes. -/
def piStep (s : List Nat) : List Nat :=
  List.ofFn fun i : Fin 25 => s.getD (piSrc i.1) 0

/-- Chi step: nonlinear row mixing. -/
def chiStep (s : List Nat) : List Nat :=
  List.ofFn fun i : Fin 25 =>
    let x := i.1 % 5
    let y := i.1 / 5
    s.getD i.1 0 ^^^
      ((s.getD ((x + 1) % 5 + 5 * y) 0 ^^^ (2 ^ 64 - 1)) &&&
        s.getD ((x + 2) % 5 + 5 * y) 0)

/-- Iota step: mix the round constant into lane 0. -/
def iotaStep (s : List Nat) (rc : Nat) : List Nat :=
  List.ofFn fun i : Fin 25 => if i.1 = 0 then s.getD 0 0 ^^^ rc else s.getD i.1 0

/-- One round of Keccak-f[1600]. -/
def keccakRound (s : List Nat) (rc : Nat) : List Nat :=
  iotaStep (chiStep (piStep (rhoStep (thetaStep s)))) rc

/-- The full 24-round Keccak-f[1600] permutation. -/
def keccakF (s : List Nat) : List Nat :=
  keccakRC.foldl keccakRound s

/-- Multi-rate padding for the 1088-bit-rate sponge with the legacy
Keccak domain byte 0x01. -/
def keccakPad (len : Nat) : List Nat :=
  let q := 136 - len % 136
  if q = 1 then [0x81] else 0x01 :: (List.replicate (q - 2) 0 ++ [0x80])

/-- Splits a byte list into 136-byte rate blocks. -/
def chunks136 (l : List Nat) : List (List Nat) :=
  if h : l = [] then []
  else (l.take 136) :: chunks136 (l.drop 136)
termination_by l.length
decreasing_by
  have hl : 0 < l.length := List.length_pos.mpr h
  simp only [List.length_drop]
  omega

/-- Reads the little-endian 64-bit lane starting at byte `8*i` of a block. -/
def laneAt (block : List Nat) (i : Nat) : Nat :=
  block.getD (8 * i) 0 + ((block.getD (8 * i + 1) 0) <<< 8) +
    ((block.getD (8 * i + 2) 0) <<< 16) + ((block.getD (8 * i + 3) 0) <<< 24) +
    ((block.getD (8 * i + 4) 0) <<< 32) + ((block.getD (8 * i + 5) 0) <<< 40) +
    ((block.getD (8 * i + 6) 0) <<< 48) + ((block.getD (8 * i + 7) 0) <<< 56)

/-- Absorbs one 136-byte block into the sponge state and permutes. -/
def absorbBlock (s : List Nat) (block : List Nat) : List Nat :=
  keccakF (List.ofFn fun i : Fin 25 =>
    if i.1 < 17 then s.getD i.1 0 ^^^ laneAt block i.1 else s.getD i.1 0)

/-- Keccak-256 of a byte list: absorb the padded message, squeeze 32 bytes. -/
def keccakBytes (msg : List Nat) : List Nat :=
  let padded := msg ++ keccakPad msg.length
  let st := (chunks136 padded).foldl absorbBlock (List.replicate 25 0)
  List.ofFn fun k : Fin 32 => (st.getD (k.1 / 8) 0 >>> (8 * (k.1 % 8))) % 256

/-- Mirrors the Rust helper `keccak256`: hash the concatenation of the
given byte segments (equivalent to `abi.encodePacked`). -/
def keccak256 (parts : List (List Nat)) : List Nat :=
  keccakBytes parts.flatten

/-- The digest always has 32 bytes. -/
theorem keccakBytes_length (msg : List Nat) : (keccakBytes msg).length = 32 := by
  simp [keccakBytes]

/-- The digest always has 32 bytes. -/
theorem keccak256_length (parts : List (List Nat)) : (keccak256 parts).length = 32 := by
  simp [keccak256, keccakBytes_length]

/-! ## Circuit data model (`types.rs`) -/

/-- Supported gate opcodes; numeric values match the Solidity `GateType`. -/
inductive GateType where
  | And
  | Xor
  | Not
deriving DecidableEq, Repr

/-- Byte encoding of an opcode (`AND = 0`, `XOR = 1`, `NOT = 2`). -/
def GateType.toByte : GateType → Nat
  | .And => 0
  | .Xor => 1
  | .Not => 2

/-- One gate descriptor from a circuit layout (`GateDesc` in `types.rs`).
Wire ids are `u16` values in the source, modelled as `Nat`. -/
structure GateDesc where
  gate_type : GateType
  wire_a : Nat
  wire_b : Nat
  wire_c : Nat
deriving DecidableEq, Repr

/-- Full circuit description passed into the garbler (`CircuitLayout`). -/
structure CircuitLayout where
  circuit_id : List Nat
  instance_id : Nat
  gates : List GateDesc

/-! ## Consensus hashing (`consensus.rs`, shared crate) -/

/-- Big-endian bytes of a `u16` value (`u16::to_be_bytes`). -/
def be2 (v : Nat) : List Nat :=
  [v / 256 % 256, v % 256]

/-- Big-endian bytes of a `u64` value (`u64::to_be_bytes`). -/
def be8 (v : Nat) : List Nat :=
  [v / 2 ^ 56 % 256, v / 2 ^ 48 % 256, v / 2 ^ 40 % 256, v / 2 ^ 32 % 256,
   v / 2 ^ 24 % 256, v / 2 ^ 16 % 256, v / 256 % 256, v % 256]

/-- Mirrors `uint256_from_u64`: 24 zero bytes followed by the value
in big-endian. -/
def uint256_from_u64 (value : Nat) : List Nat :=
  List.replicate 24 0 ++ be8 value

/-- The packed gate-leaf length (`1 + 2 + 2 + 2 + 4*16`). -/
def LEAF_BYTES_LEN : Nat := 71

/-- Mirrors `derive_wire_flip_bit`:
`keccak256("P", circuitId, instanceId, wireId, seed) & 1` of the last byte. -/
def derive_wire_flip_bit (circuit_id : List Nat) (instance_id wire_id : Nat)
    (seed : List Nat) : Nat :=
  let inst := uint256_from_u64 instance_id
  let h := keccak256 [[0x50], circuit_id, inst, be2 wire_id, seed]
  h.getD 31 0 &&& 1

/-- Mirrors `derive_wire_label`: first 16 bytes of the domain-"L" hash with
the first byte's LSB rewritten to `flip XOR semanticBit`. -/
def derive_wire_label (circuit_id : List Nat) (instance_id wire_id semantic_bit : Nat)
    (seed : List Nat) : List Nat :=
  let inst := uint256_from_u64 instance_id
  let bit := [semantic_bit &&& 1]
  let h := keccak256 [[0x4C], circuit_id, inst, be2 wire_id, bit, seed]
  let label := h.take 16
  let flip := derive_wire_flip_bit circuit_id instance_id wire_id seed
  let permute := (flip ^^^ (semantic_bit &&& 1)) &&& 1
  label.set 0 ((label.getD 0 0 &&& 0xFE) ||| permute)

/-- Mirrors `compute_row_key`:
`keccak256("K", circuitId, instanceId, gateIndex, permA, permB, labelA, labelB)`. -/
def compute_row_key (circuit_id : List Nat) (instance_id gate_index perm_a perm_b : Nat)
    (label_a label_b : List Nat) : List Nat :=
  let inst := uint256_from_u64 instance_id
  let gate := uint256_from_u64 gate_index
  keccak256 [[0x4B], circuit_id, inst, gate, [perm_a &&& 1], [perm_b &&& 1],
    label_a, label_b]

/-- Mirrors `expand_pad`: first 16 bytes of `keccak256("PAD", rowKey)`. -/
def expand_pad (row_key : List Nat) : List Nat :=
  (keccak256 [[0x50, 0x41, 0x44], row_key]).take 16

/-- Mirrors `xor16`: byte-wise XOR of two 16-byte buffers. -/
def xor16 (a b : List Nat) : List Nat :=
  List.zipWith (fun x y => x ^^^ y) a b

/-- Mirrors `encode_leaf`:
`gateType || wireA || wireB || wireC || row0 || row1 || row2 || row3`. -/
def encode_leaf (gate : GateDesc) (rows : List (List Nat)) : List Nat :=
  [gate.gate_type.toByte] ++ be2 gate.wire_a ++ be2 gate.wire_b ++ be2 gate.wire_c ++
    rows.flatten

/-- Mirrors `layout_leaf_hash`:
`keccak256(gateIndex, gateType, wireA, wireB, wireC)`. -/
def layout_leaf_hash (gate_index : Nat) (gate : GateDesc) : List Nat :=
  keccak256 [uint256_from_u64 gate_index, [gate.gate_type.toByte],
    be2 gate.wire_a, be2 gate.wire_b, be2 gate.wire_c]

/-- Mirrors `truth_table`: `AND`/`XOR` semantics; `NOT` rows are canonical
zero and return `0`. -/
def truth_table (gate_type : GateType) (a b : Nat) : Nat :=
  match gate_type with
  | .And => (a &&& b) &&& 1
  | .Xor => (a ^^^ b) &&& 1
  | .Not => 0

/-- Mirrors `get_permutation_bit` (`labels.rs`): LSB of the first byte. -/
def get_permutation_bit (label : List Nat) : Nat :=
  label.getD 0 0 &&& 1

/-! ## Garbler (`garble.rs`, shared crate) -/

/-- Mirrors `recompute_gate_leaf`: one 71-byte gate leaf from
`(seed, circuitId, instanceId, gateIndex, gate)`. Rows are stored at
index `2*permA + permB`; NOT-gate rows stay all-zero. -/
def recompute_gate_leaf (seed circuit_id : List Nat) (instance_id gate_index : Nat)
    (gate : GateDesc) : List Nat :=
  let rows :=
    if gate.gate_type ≠ GateType.Not then
      let flip_a := derive_wire_flip_bit circuit_id instance_id gate.wire_a seed
      let flip_b := derive_wire_flip_bit circuit_id instance_id gate.wire_b seed
      let row := fun perm_a perm_b =>
        let bit_a := perm_a ^^^ flip_a
        let bit_b := perm_b ^^^ flip_b
        let out_bit := truth_table gate.gate_type bit_a bit_b
        let label_a := derive_wire_label circuit_id instance_id gate.wire_a bit_a seed
        let label_b := derive_wire_label circuit_id instance_id gate.wire_b bit_b seed
        let out_label := derive_wire_label circuit_id instance_id gate.wire_c out_bit seed
        let row_key := compute_row_key circuit_id instance_id gate_index perm_a perm_b
          label_a label_b
        xor16 out_label (expand_pad row_key)
      [row 0 0, row 0 1, row 1 0, row 1 1]
    else
      List.replicate 4 (List.replicate 16 0)
  encode_leaf gate rows

/-- Indexed helper for `garble_circuit` (iteration index is the consensus
`gateIndex`). -/
def garbleAux (seed circuit_id : List Nat) (instance_id : Nat) :
    Nat → List GateDesc → List (List Nat)
  | _, [] => []
  | idx, g :: rest =>
      recompute_gate_leaf seed circuit_id instance_id idx g ::
        garbleAux seed circuit_id instance_id (idx + 1) rest

/-- Mirrors `garble_circuit`: all gate leaves of one instance, in gate order. -/
def garble_circuit (seed : List Nat) (layout : CircuitLayout) : List (List Nat) :=
  garbleAux seed layout.circuit_id layout.instance_id 0 layout.gates

/-! ## Incremental hash chain (`ih.rs`) -/

/-- The all-zero 32-byte string. -/
def zero32 : List Nat := List.replicate 32 0

/-- Mirrors `gc_block_hash`: `keccak256(gateIndex_u256, leafBytes)`. -/
def gc_block_hash (gate_index : Nat) (leaf : List Nat) : List Nat :=
  keccak256 [uint256_from_u64 gate_index, leaf]

/-- Mirrors `inc_hash`: one incremental transition. -/
def inc_hash (prev block_hash : List Nat) : List Nat :=
  keccak256 [prev, block_hash]

/-- Mirrors `incremental_root_from_hashes`: left fold of `inc_hash` from the
all-zero state. -/
def incremental_root_from_hashes (block_hashes : List (List Nat)) : List Nat :=
  block_hashes.foldl inc_hash zero32

/-- Mirrors `incremental_root`: chain over per-gate block hashes. -/
def incremental_root (leaves : List (List Nat)) : List Nat :=
  incremental_root_from_hashes
    ((List.range leaves.length).map fun i => gc_block_hash i (leaves.getD i []))

/-- Mirrors `ih_proof_from_hashes`: `[]` for a single block, otherwise the
prefix state followed by the ordered suffix block hashes. -/
def ih_proof_from_hashes (block_hashes : List (List Nat)) (index : Nat) :
    List (List Nat) :=
  if block_hashes.length = 1 then []
  else ((block_hashes.take index).foldl inc_hash zero32) ::
    block_hashes.drop (index + 1)

/-- Mirrors `verify_ih_proof`. -/
def verify_ih_proof (block_hash : List Nat) (ih_proof : List (List Nat))
    (root : List Nat) : Bool :=
  let state := match ih_proof with
    | [] => inc_hash zero32 block_hash
    | p0 :: _ => inc_hash p0 block_hash
  (ih_proof.drop 1).foldl inc_hash state == root

/-! ## Layout Merkle tree (`merkle.rs`) -/

/-- Mirrors `leaf_hash`: hash of a raw 71-byte gate leaf. -/
def leaf_hash (leaf : List Nat) : List Nat :=
  keccak256 [leaf]

/-- Lexicographic `<=` on byte strings, mirroring the `PartialOrd` used by
`commutative_node_hash` on `[u8; 32]`. -/
def bytesLe : List Nat → List Nat → Bool
  | [], _ => true
  | _ :: _, [] => false
  | a :: xs, b :: ys => if a < b then true else if b < a then false else bytesLe xs ys

/-- Mirrors `commutative_node_hash`: hash the sorted pair. -/
def commutative_node_hash (a b : List Nat) : List Nat :=
  if bytesLe a b then keccak256 [a, b] else keccak256 [b, a]

/-- One level-up step of the Merkle tree; odd-width levels duplicate the
last node. -/
def nextLevel : List (List Nat) → List (List Nat)
  | [] => []
  | [a] => [commutative_node_hash a a]
  | a :: b :: rest => commutative_node_hash a b :: nextLevel rest

/-- Each level up halves the width (rounding up). -/
theorem nextLevel_length (l : List (List Nat)) :
    (nextLevel l).length = (l.length + 1) / 2 := by
  induction l using nextLevel.induct with
  | case1 => simp [nextLevel]
  | case2 a => simp [nextLevel]
  | case3 a b rest ih => simp [nextLevel, ih]; omega

/-- The `while level.len() > 1` loop of `merkle_root_from_hashes`. -/
def merkleRootLoop (level : List (List Nat)) : List Nat :=
  if h : 1 < level.length then merkleRootLoop (nextLevel level)
  else level.headD zero32
termination_by level.length
decreasing_by
  simp only [nextLevel_length]
  omega

/-- Mirrors `merkle_root_from_hashes` (empty input gives the zero root). -/
def merkle_root_from_hashes (hashes : List (List Nat)) : List Nat :=
  merkleRootLoop hashes

/-- The `while` loop of `merkle_proof_from_hashes`: collect the sibling at
each level, then move to the parent index. -/
def merkleProofLoop (level : List (List Nat)) (idx : Nat) : List (List Nat) :=
  if h : 1 < level.length then
    let sibling :=
      if idx % 2 = 0 then
        if idx + 1 < level.length then level.getD (idx + 1) zero32
        else level.getD idx zero32
      else level.getD (idx - 1) zero32
    sibling :: merkleProofLoop (nextLevel level) (idx / 2)
  else []
termination_by level.length
decreasing_by
  simp only [nextLevel_length]
  omega

/-- Mirrors `merkle_proof_from_hashes`. -/
def merkle_proof_from_hashes (hashes : List (List Nat)) (index : Nat) :
    List (List Nat) :=
  merkleProofLoop hashes index

/-- Mirrors `verify_proof`: fold the commutative node hash over the proof. -/
def verify_proof (leaf : List Nat) (proof : List (List Nat)) (root : List Nat) :
    Bool :=
  proof.foldl commutative_node_hash leaf == root

/-! ## Scenario wiring (`scenario.rs`) -/

/-- Number of cut-and-choose instances (`CUT_AND_CHOOSE_N`). -/
def CUT_AND_CHOOSE_N : Nat := 10

/-- Builder state for the comparator layout: accumulated gates plus the next
free wire id (a `u16` advanced with `saturating_add`). -/
structure BuildSt where
  gates : List GateDesc
  next_wire : Nat

/-- Mirrors `push_gate`: append one gate writing into the next free wire and
advance the wire counter with saturation at `u16::MAX`. -/
def push_gate (st : BuildSt) (gate_type : GateType) (a b : Nat) : BuildSt × Nat :=
  let out := st.next_wire
  (⟨st.gates ++ [⟨gate_type, a, b, out⟩], min (st.next_wire + 1) 65535⟩, out)

/-- Mirrors `push_xor`. -/
def push_xor (st : BuildSt) (a b : Nat) : BuildSt × Nat := push_gate st .Xor a b

/-- Mirrors `push_and`. -/
def push_and (st : BuildSt) (a b : Nat) : BuildSt × Nat := push_gate st .And a b

/-- Mirrors `push_not`. -/
def push_not (st : BuildSt) (a : Nat) : BuildSt × Nat := push_gate st .Not a 0

/-- Mirrors `push_or`: `(a XOR b) XOR (a AND b)`. -/
def push_or (st : BuildSt) (a b : Nat) : BuildSt × Nat :=
  let p := push_xor st a b
  let q := push_and p.1 a b
  push_xor q.1 p.2 q.2

/-- One iteration of the comparator loop of `build_millionaires_layout` at
bit position `bit` (wire ids are `u16` casts of the bit positions). -/
def millStep (bit_width : Nat) (st : BuildSt) (acc : Option Nat × Option Nat)
    (bit : Nat) : BuildSt × (Option Nat × Option Nat) :=
  let a := bit % 65536
  let b := (bit + bit_width) % 65536
  let s1 := push_xor st a b
  let s2 := push_not s1.1 s1.2
  let s3 := push_not s2.1 b
  let s4 := push_and s3.1 a s3.2
  match acc with
  | (none, none) => (s4.1, (some s4.2, some s2.2))
  | (some gt_prev, some eq_prev) =>
      let s5 := push_and s4.1 eq_prev s4.2
      let s6 := push_or s5.1 gt_prev s5.2
      let s7 := push_and s6.1 eq_prev s2.2
      (s7.1, (some s6.2, some s7.2))
  | _ => (s4.1, acc)   -- `unreachable!` in the source: accumulators progress together

/-- The `for bit in (0..bit_width).rev()` loop. -/
def millLoop (bit_width : Nat) :
    List Nat → BuildSt × (Option Nat × Option Nat) → BuildSt × (Option Nat × Option Nat)
  | [], s => s
  | bit :: rest, s => millLoop bit_width rest (millStep bit_width s.1 s.2 bit)

/-- Mirrors `build_millionaires_layout`: input wires `0..2w-1`, then the
MSB-to-LSB comparator gates. -/
def build_millionaires_layout (bit_width : Nat) : List GateDesc :=
  (millLoop bit_width ((List.range bit_width).reverse)
    (⟨[], (bit_width * 2) % 65536⟩, (none, none))).1.gates

/-- Mirrors `derive_instance_seed`: `keccak256("SEED", circuitId, i, master)`. -/
def derive_instance_seed (master_seed circuit_id : List Nat) (instance_id : Nat) :
    List Nat :=
  keccak256 [[0x53, 0x45, 0x45, 0x44], circuit_id, uint256_from_u64 instance_id,
    master_seed]

/-- Mirrors `com_seed`: `keccak256(seed)`. -/
def com_seed (seed : List Nat) : List Nat :=
  keccak256 [seed]

/-! ## Evaluator (`evaluation.rs`) -/

/-- Auxiliary material for evaluating canonical NOT gates (`NotGateHint`). -/
structure NotGateHint where
  gate_index : Nat
  in_label0 : List Nat
  out_if_in0 : List Nat
  in_label1 : List Nat
  out_if_in1 : List Nat
deriving DecidableEq, Repr

/-- Mirrors `label16_to_bytes32`: the 16-byte label followed by 16 zeros. -/
def label16_to_bytes32 (label : List Nat) : List Nat :=
  label ++ List.replicate 16 0

/-- Mirrors `u64_to_bits_le`: bit 0 is the LSB and maps to wire 0. The Rust
shift `value >> idx` acts on a `u64`, so a shift amount of 64 or more is an
arithmetic overflow: release builds wrap the amount to `idx % 64` (modelled
here); debug builds panic at that shift instead. -/
def u64_to_bits_le (value bit_width : Nat) : List Nat :=
  (List.range bit_width).map fun idx => (value >>> (idx % 64)) &&& 1

/-- Mirrors `millionaires_gt_output_wire`: the `x > y` wire of
`build_millionaires_layout` (last gate for width 1, else the penultimate). -/
def millionaires_gt_output_wire (gates : List GateDesc) (bit_width : Nat) :
    Except String Nat :=
  if gates.isEmpty then .error "layout has no gates"
  else if bit_width = 1 then .ok (gates.getD (gates.length - 1) ⟨.And, 0, 0, 0⟩).wire_c
  else if gates.length < 2 then .error "layout too short for bit_width >= 2"
  else .ok (gates.getD (gates.length - 2) ⟨.And, 0, 0, 0⟩).wire_c

/-- Mirrors `derive_bob_label_offers`: both labels for each of Bob's wires. -/
def derive_bob_label_offers (seed circuit_id : List Nat)
    (instance_id bit_width : Nat) : List (List Nat × List Nat) :=
  (List.range bit_width).map fun bit_idx =>
    let wire := bit_width + bit_idx
    (derive_wire_label circuit_id instance_id wire 0 seed,
     derive_wire_label circuit_id instance_id wire 1 seed)

/-- Mirrors `derive_alice_input_labels`: labels for Alice's wires selected by
the `u64_to_bits_le` bits of `x` (so the same `u64` shift wrap applies). -/
def derive_alice_input_labels (seed circuit_id : List Nat)
    (instance_id bit_width x_value : Nat) : List (List Nat) :=
  (List.range bit_width).map fun bit_idx =>
    derive_wire_label circuit_id instance_id bit_idx
      ((x_value >>> (bit_idx % 64)) &&& 1) seed

/-- Indexed helper for `derive_not_gate_hints` (the enumerated filter-map). -/
def deriveNotHintsAux (circuit_id : List Nat) (instance_id : Nat) (seed : List Nat) :
    List GateDesc → Nat → List NotGateHint
  | [], _ => []
  | g :: rest, gate_index =>
      if g.gate_type = GateType.Not then
        { gate_index := gate_index
          in_label0 := derive_wire_label circuit_id instance_id g.wire_a 0 seed
          out_if_in0 := derive_wire_label circuit_id instance_id g.wire_c 1 seed
          in_label1 := derive_wire_label circuit_id instance_id g.wire_a 1 seed
          out_if_in1 := derive_wire_label circuit_id instance_id g.wire_c 0 seed } ::
          deriveNotHintsAux circuit_id instance_id seed rest (gate_index + 1)
      else deriveNotHintsAux circuit_id instance_id seed rest (gate_index + 1)

/-- Mirrors `derive_not_gate_hints`. -/
def derive_not_gate_hints (seed : List Nat) (layout : CircuitLayout) :
    List NotGateHint :=
  deriveNotHintsAux layout.circuit_id layout.instance_id seed layout.gates 0

/-- Evaluator errors: `fail` mirrors a returned `Err(String)`; `oob` models a
Rust index-out-of-bounds abort in `wire_labels[..]`. -/
inductive EvalErr where
  | oob : EvalErr
  | fail : String → EvalErr
deriving DecidableEq, Repr

/-- Bounds-checked read of a wire-label slot (`wire_labels[i]`). -/
def getSlot (wl : List (Option (List Nat))) (i : Nat) :
    Except EvalErr (Option (List Nat)) :=
  if i < wl.length then .ok (wl.getD i none) else .error .oob

/-- Bounds-checked write of a wire-label slot (`wire_labels[i] = Some(v)`). -/
def setSlot (wl : List (Option (List Nat))) (i : Nat) (v : List Nat) :
    Except EvalErr (List (Option (List Nat))) :=
  if i < wl.length then .ok (wl.set i (some v)) else .error .oob

/-- The input-population loops of `evaluate_garbled_circuit`. -/
def populateFrom (wl : List (Option (List Nat))) (start : Nat) :
    List (List Nat) → Except EvalErr (List (Option (List Nat)))
  | [] => .ok wl
  | l :: rest => do
      let wl' ← setSlot wl start l
      populateFrom wl' (start + 1) rest

/-- Mirrors `row_ct_from_leaf`: the 16-byte ciphertext at offset
`7 + 16*rowIndex`. -/
def row_ct_from_leaf (leaf : List Nat) (row_index : Nat) :
    Except EvalErr (List Nat) :=
  if 3 < row_index then .error (.fail "row index out of range")
  else .ok ((leaf.drop (7 + 16 * row_index)).take 16)

/-- The per-gate loop of `evaluate_garbled_circuit`. -/
def evalGates (circuit_id : List Nat) (instance_id : Nat) (leaves : List (List Nat))
    (not_hints : List NotGateHint) :
    List GateDesc → Nat → List (Option (List Nat)) →
      Except EvalErr (List (Option (List Nat)))
  | [], _, wl => .ok wl
  | gate :: rest, gate_idx, wl => do
      let slotA ← getSlot wl gate.wire_a
      let label_a ← match slotA with
        | some l => Except.ok l
        | none => Except.error (EvalErr.fail "missing wire label for wireA")
      let out_label ← match gate.gate_type with
        | GateType.And | GateType.Xor => do
            let slotB ← getSlot wl gate.wire_b
            let label_b ← match slotB with
              | some l => Except.ok l
              | none => Except.error (EvalErr.fail "missing wire label for wireB")
            let perm_a := label_a.getD 0 0 &&& 1
            let perm_b := label_b.getD 0 0 &&& 1
            let row_index := 2 * perm_a + perm_b
            let ct ← row_ct_from_leaf (leaves.getD gate_idx []) row_index
            let row_key := compute_row_key circuit_id instance_id gate_idx
              perm_a perm_b label_a label_b
            Except.ok (xor16 ct (expand_pad row_key))
        | GateType.Not => do
            let hint ← match not_hints.find? (fun h => h.gate_index == gate_idx) with
              | some h => Except.ok h
              | none => Except.error (EvalErr.fail "missing NOT hint")
            if label_a = hint.in_label0 then Except.ok hint.out_if_in0
            else if label_a = hint.in_label1 then Except.ok hint.out_if_in1
            else Except.error (EvalErr.fail "NOT hint mismatch")
      let wl' ← setSlot wl gate.wire_c out_label
      evalGates circuit_id instance_id leaves not_hints rest (gate_idx + 1) wl'

/-- Mirrors `evaluate_garbled_circuit`. -/
def evaluate_garbled_circuit (layout : CircuitLayout) (leaves : List (List Nat))
    (alice_input_labels bob_input_labels : List (List Nat))
    (not_hints : List NotGateHint) (output_wire : Nat) :
    Except EvalErr (List Nat) :=
  let gates := layout.gates
  if leaves.length ≠ gates.length then
    .error (.fail "leaves count does not match gate count")
  else
    let bit_width := alice_input_labels.length
    if bob_input_labels.length ≠ bit_width then
      .error (.fail "bob input label count does not match alice count")
    else
      let max_wire0 := (2 * bit_width - 1) % 65536
      let max_wire := gates.foldl
        (fun m g => max (max (max m g.wire_a) g.wire_b) g.wire_c) max_wire0
      do
        let wl1 ← populateFrom (List.replicate (max_wire + 1) none) 0
          alice_input_labels
        let wl2 ← populateFrom wl1 bit_width bob_input_labels
        let wl3 ← evalGates layout.circuit_id layout.instance_id leaves not_hints
          gates 0 wl2
        if output_wire < wl3.length then
          match wl3.getD output_wire none with
          | some l => Except.ok l
          | none => Except.error (.fail "missing output wire label")
        else Except.error (.fail "output wire is out of range")

/-! ## Basic facts -/

/-- A masked value is at most one. -/
theorem and_one_le (x : Nat) : x &&& 1 ≤ 1 := by
  rw [Nat.and_one_is_mod]
  omega

/-- Masking with one fixes values that are already at most one. -/
theorem and_one_of_le {x : Nat} (hx : x ≤ 1) : x &&& 1 = x := by
  rw [Nat.and_one_is_mod]
  omega

/-- The LSB of a byte whose LSB was overwritten is the written bit. -/
theorem lor_and_one (a p : Nat) (hp : p ≤ 1) : ((a &&& 254) ||| p) &&& 1 = p := by
  have h0 : ((a &&& 254) ||| p).testBit 0 = p.testBit 0 := by
    rw [Nat.testBit_lor, Nat.testBit_land]
    have h254 : (254 : Nat).testBit 0 = false := by decide
    rw [h254]
    simp
  rw [Nat.testBit_zero, Nat.testBit_zero] at h0
  rw [Nat.and_one_is_mod]
  rcases Nat.mod_two_eq_zero_or_one ((a &&& 254) ||| p) with h | h <;>
    rw [h] at h0 ⊢ <;> simp at h0 <;> omega

/-- `getD` after `set` at the written index. -/
theorem getD_set_self {α : Type} (l : List α) (i : Nat) (x d : α)
    (h : i < l.length) : (l.set i x).getD i d = x := by
  rw [List.getD_eq_getElem _ _ (by simpa using h)]
  exact List.getElem_set_self _

/-- `getD` after `set` at a different index. -/
theorem getD_set_ne {α : Type} (l : List α) (i j : Nat) (x d : α) (h : i ≠ j) :
    (l.set i x).getD j d = l.getD j d := by
  by_cases hj : j < l.length
  · rw [List.getD_eq_getElem _ _ (by simpa using hj), List.getD_eq_getElem _ _ hj]
    exact List.getElem_set_of_ne h x _
  · rw [List.getD_eq_default, List.getD_eq_default] <;> simp_all

/-- XOR-ing the same equal-length mask twice is the identity. -/
theorem xor16_cancel (a b : List Nat) (h : a.length = b.length) :
    xor16 (xor16 a b) b = a := by
  unfold xor16
  induction a generalizing b with
  | nil => simp
  | cons x xs ih =>
    cases b with
    | nil => simp at h
    | cons y ys =>
      simp only [List.zipWith]
      rw [ih ys (by simpa using h)]
      simp [Nat.xor_cancel_right]

/-- Wire labels take 16 bytes. -/
theorem derive_wire_label_length (cid seed : List Nat) (iid w b : Nat) :
    (derive_wire_label cid iid w b seed).length = 16 := by
  simp [derive_wire_label, keccak256_length]

/-- Pads take 16 bytes. -/
theorem expand_pad_length (row_key : List Nat) :
    (expand_pad row_key).length = 16 := by
  simp [expand_pad, keccak256_length]

/-- Flip bits are at most one. -/
theorem derive_wire_flip_bit_le (cid seed : List Nat) (iid w : Nat) :
    derive_wire_flip_bit cid iid w seed ≤ 1 := by
  unfold derive_wire_flip_bit
  exact and_one_le _

/-- Masking the semantic bit does not change the derived label. -/
theorem derive_wire_label_and_one (cid seed : List Nat) (iid w b : Nat) :
    derive_wire_label cid iid w (b &&& 1) seed = derive_wire_label cid iid w b seed := by
  unfold derive_wire_label
  have h : (b &&& 1) &&& 1 = b &&& 1 := and_one_of_le (and_one_le b)
  rw [h]

/-- Permutation bit of a derived label: `flip XOR semantic` (the core
point-and-permute invariant, proved from the explicit bit overwrite). -/
theorem label_perm_bit (cid seed : List Nat) (iid w b : Nat) (hb : b ≤ 1) :
    get_permutation_bit (derive_wire_label cid iid w b seed) =
      derive_wire_flip_bit cid iid w seed ^^^ b := by
  unfold get_permutation_bit derive_wire_label
  have hlen : ((keccak256 [[0x4C], cid, uint256_from_u64 iid, be2 w, [b &&& 1],
      seed]).take 16).length = 16 := by
    simp [keccak256_length]
  rw [getD_set_self _ 0 _ _ (by omega)]
  rw [lor_and_one _ _ (and_one_le _)]
  have hf := derive_wire_flip_bit_le cid seed iid w
  rw [and_one_of_le hb]
  refine and_one_of_le ?_
  rcases Nat.le_one_iff_eq_zero_or_eq_one.mp hf with h | h <;>
    rcases Nat.le_one_iff_eq_zero_or_eq_one.mp hb with h' | h' <;>
      rw [h, h'] <;> decide

/-- The two labels of one wire are distinct: their permutation bits differ. -/
theorem label_ne (cid seed : List Nat) (iid w b b' : Nat) (hb : b ≤ 1)
    (hb' : b' ≤ 1) (hne : b ≠ b') :
    derive_wire_label cid iid w b seed ≠ derive_wire_label cid iid w b' seed := by
  intro h
  have hp := congrArg get_permutation_bit h
  rw [label_perm_bit cid seed iid w b hb, label_perm_bit cid seed iid w b' hb'] at hp
  have h3 := congrArg (fun z => derive_wire_flip_bit cid iid w seed ^^^ z) hp
  simp only [← Nat.xor_assoc, Nat.xor_self, Nat.zero_xor] at h3
  exact hne h3

/-- Extracting ciphertext row `i` from an encoded leaf returns the stored row. -/
theorem encode_leaf_row (g : GateDesc) (r0 r1 r2 r3 : List Nat) (i : Nat)
    (h0 : r0.length = 16) (h1 : r1.length = 16) (h2 : r2.length = 16)
    (h3 : r3.length = 16) (hi : i ≤ 3) :
    ((encode_leaf g [r0, r1, r2, r3]).drop (7 + 16 * i)).take 16 =
      [r0, r1, r2, r3].getD i [] := by
  unfold encode_leaf be2
  interval_cases i
  · simp only [List.flatten, List.append_nil, List.cons_append, List.nil_append]
    norm_num [List.drop_succ_cons]
    rw [List.take_left' h0]
  · simp only [List.flatten, List.append_nil, List.cons_append, List.nil_append]
    norm_num [List.drop_succ_cons]
    rw [List.drop_left' h0, List.take_left' h1]
  · simp only [List.flatten, List.append_nil, List.cons_append, List.nil_append]
    norm_num [List.drop_succ_cons]
    rw [show (32 : Nat) = 16 + 16 from rfl, ← List.drop_drop, List.drop_left' h0,
      List.drop_left' h1, List.take_left' h2]
  · simp only [List.flatten, List.append_nil, List.cons_append, List.nil_append]
    norm_num [List.drop_succ_cons]
    rw [show (48 : Nat) = 16 + (16 + 16) from rfl, ← List.drop_drop, ← List.drop_drop,
      List.drop_left' h0, List.drop_left' h1, List.drop_left' h2]
    exact List.take_of_length_le (by omega)

/-- Row decryption of a garbled AND/XOR leaf: the row at index
`2*permA + permB` XOR-ed with its pad is the output label for the gate's
truth value (general helper shared by the evaluator correctness proofs). -/
theorem leaf_row_decode (seed cid : List Nat) (iid gidx : Nat) (g : GateDesc)
    (bA bB pa pb : Nat)
    (hg : g.gate_type = GateType.And ∨ g.gate_type = GateType.Xor)
    (hA : bA ≤ 1) (hB : bB ≤ 1)
    (hpa : pa = bA ^^^ derive_wire_flip_bit cid iid g.wire_a seed)
    (hpb : pb = bB ^^^ derive_wire_flip_bit cid iid g.wire_b seed) :
    xor16
      (((recompute_gate_leaf seed cid iid gidx g).drop (7 + 16 * (2 * pa + pb))).take 16)
      (expand_pad (compute_row_key cid iid gidx pa pb
        (derive_wire_label cid iid g.wire_a bA seed)
        (derive_wire_label cid iid g.wire_b bB seed))) =
      derive_wire_label cid iid g.wire_c (truth_table g.gate_type bA bB) seed := by
  have hnot : ¬ g.gate_type = GateType.Not := by
    rcases hg with h | h <;> rw [h] <;> intro hc <;> cases hc
  have hfa := derive_wire_flip_bit_le cid seed iid g.wire_a
  have hfb := derive_wire_flip_bit_le cid seed iid g.wire_b
  have hpa1 : pa ≤ 1 := by
    rw [hpa]; interval_cases bA <;>
      rcases Nat.le_one_iff_eq_zero_or_eq_one.mp hfa with h | h <;> rw [h] <;> decide
  have hpb1 : pb ≤ 1 := by
    rw [hpb]; interval_cases bB <;>
      rcases Nat.le_one_iff_eq_zero_or_eq_one.mp hfb with h | h <;> rw [h] <;> decide
  have hbackA : pa ^^^ derive_wire_flip_bit cid iid g.wire_a seed = bA := by
    rw [hpa]; exact Nat.xor_cancel_right _ _
  have hbackB : pb ^^^ derive_wire_flip_bit cid iid g.wire_b seed = bB := by
    rw [hpb]; exact Nat.xor_cancel_right _ _
  unfold recompute_gate_leaf
  rw [if_pos hnot]
  have hrowlen : ∀ ra rb rc : List Nat,
      (xor16 rc (expand_pad (compute_row_key cid iid gidx pa pb ra rb))).length =
        (xor16 rc (expand_pad (compute_row_key cid iid gidx pa pb ra rb))).length :=
    fun _ _ _ => rfl
  clear hrowlen
  interval_cases pa <;> interval_cases pb <;>
    · rw [encode_leaf_row _ _ _ _ _ _
        (by simp [xor16, derive_wire_label_length, expand_pad_length])
        (by simp [xor16, derive_wire_label_length, expand_pad_length])
        (by simp [xor16, derive_wire_label_length, expand_pad_length])
        (by simp [xor16, derive_wire_label_length, expand_pad_length])
        (by norm_num)]
      simp only [List.getD]
      norm_num at hbackA hbackB ⊢
      rw [hbackA, hbackB]
      exact xor16_cancel _ _
        (by simp [derive_wire_label_length, expand_pad_length])

/-! ## Merkle-tree facts -/

/-- `bytesLe` is total. -/
theorem bytesLe_total : ∀ a b : List Nat, bytesLe a b = true ∨ bytesLe b a = true := by
  intro a
  induction a with
  | nil => intro b; left; rfl
  | cons x xs ih =>
    intro b
    cases b with
    | nil => right; rfl
    | cons y ys =>
      by_cases hxy : x < y
      · left; simp [bytesLe, hxy]
      · by_cases hyx : y < x
        · right; simp [bytesLe, hyx, hxy]
        · have hxy' : x = y := by omega
          subst hxy'
          rcases ih ys with h | h
          · left; simpa [bytesLe, hxy] using h
          · right; simpa [bytesLe, hxy] using h

/-- `bytesLe` is antisymmetric. -/
theorem bytesLe_antisymm : ∀ a b : List Nat,
    bytesLe a b = true → bytesLe b a = true → a = b := by
  intro a
  induction a with
  | nil =>
    intro b hab hba
    cases b with
    | nil => rfl
    | cons y ys => simp [bytesLe] at hba
  | cons x xs ih =>
    intro b hab hba
    cases b with
    | nil => simp [bytesLe] at hab
    | cons y ys =>
      by_cases hxy : x < y
      · simp [bytesLe, hxy, Nat.lt_asymm hxy] at hba
      · by_cases hyx : y < x
        · simp [bytesLe, hxy, hyx] at hab
        · have hxy' : x = y := by omega
          subst hxy'
          simp [bytesLe, hxy] at hab hba
          rw [ih ys hab hba]

/-- The sorted-pair node hash is commutative. -/
theorem commutative_node_hash_comm (a b : List Nat) :
    commutative_node_hash a b = commutative_node_hash b a := by
  unfold commutative_node_hash
  by_cases hab : bytesLe a b = true <;> by_cases hba : bytesLe b a = true
  · rw [if_pos hab, if_pos hba, bytesLe_antisymm a b hab hba]
  · rw [if_pos hab, if_neg (by simp [hba])]
  · rw [if_neg (by simp [hab]), if_pos hba]
  · rcases bytesLe_total a b with h | h
    · exact absurd h hab
    · exact absurd h hba

/-- The sibling captured by one level of `merkle_proof_from_hashes`. -/
def siblingAt (level : List (List Nat)) (idx : Nat) : List Nat :=
  if idx % 2 = 0 then
    if idx + 1 < level.length then level.getD (idx + 1) zero32
    else level.getD idx zero32
  else level.getD (idx - 1) zero32

/-- Unfolding of the proof loop at a level of width at least two. -/
theorem merkleProofLoop_cons (level : List (List Nat)) (idx : Nat)
    (h : 1 < level.length) :
    merkleProofLoop level idx =
      siblingAt level idx :: merkleProofLoop (nextLevel level) (idx / 2) := by
  rw [merkleProofLoop, dif_pos h]
  rfl

/-- Hashing a node with its sibling gives the parent at the next level. -/
theorem nextLevel_parent : ∀ (l : List (List Nat)) (i : Nat), i < l.length →
    2 ≤ l.length →
    commutative_node_hash (l.getD i zero32) (siblingAt l i) =
      (nextLevel l).getD (i / 2) zero32 := by
  intro l
  induction l using nextLevel.induct with
  | case1 => intro i hi _; simp at hi
  | case2 a => intro i hi h2; simp at h2
  | case3 a b rest ih =>
    intro i hi h2
    match i with
    | 0 => simp [siblingAt, nextLevel]
    | 1 =>
      simp [siblingAt, nextLevel]
      exact commutative_node_hash_comm _ _
    | (k + 2) =>
      have hk : k < rest.length := by simpa using hi
      rcases rest with _ | ⟨c, rest'⟩
      · simp at hk
      rcases rest' with _ | ⟨d, rest''⟩
      · -- width-3 level: the last node is duplicated
        have hk0 : k = 0 := by simpa using hk
        subst hk0
        simp [siblingAt, nextLevel]
      · have h2' : 2 ≤ (c :: d :: rest'').length := by simp
        have := ih k hk h2'
        have hshift : siblingAt (a :: b :: c :: d :: rest'') (k + 2) =
            siblingAt (c :: d :: rest'') k := by
          unfold siblingAt
          have hmod : (k + 2) % 2 = k % 2 := by omega
          rw [hmod]
          by_cases hke : k % 2 = 0
          · simp only [hke, if_true]
            by_cases hlt : k + 1 < (c :: d :: rest'').length
            · rw [if_pos (by simpa using hlt), if_pos hlt]
              rfl
            · rw [if_neg (by simpa using hlt), if_neg hlt]
              rfl
          · simp only [hke, if_false]
            match k, hke with
            | (j + 1), _ => rfl
        rw [hshift]
        have hdiv : (k + 2) / 2 = k / 2 + 1 := by omega
        rw [hdiv]
        simpa [nextLevel] using this

/-- Unfolding of the root loop. -/
theorem merkleRootLoop_step (level : List (List Nat)) (h : 1 < level.length) :
    merkleRootLoop level = merkleRootLoop (nextLevel level) := by
  rw [merkleRootLoop, dif_pos h]

/-- Folding the commutative node hash over the proof from any leaf
reproduces the root. -/
theorem merkle_fold_root (level : List (List Nat)) (i : Nat) (hi : i < level.length) :
    (merkleProofLoop level i).foldl commutative_node_hash (level.getD i zero32) =
      merkleRootLoop level := by
  induction level using merkleRootLoop.induct generalizing i with
  | case1 level h ih =>
    rw [merkleProofLoop_cons level i h, List.foldl_cons,
      nextLevel_parent level i hi (by omega), merkleRootLoop_step level h]
    exact ih _ (by rw [nextLevel_length]; omega)
  | case2 level h =>
    have h1 : level.length = 1 := by
      rcases Nat.lt_or_ge level.length 1 with h' | h'
      · omega
      · omega
    rcases level with _ | ⟨x, rest⟩
    · simp at h1
    · have : rest = [] := by simpa using h1
      subst this
      have hi0 : i = 0 := by simpa using hi
      subst hi0
      rw [merkleProofLoop, dif_neg h, merkleRootLoop, dif_neg h]
      rfl

/-! ## Claim theorems C2-C5 -/

/-- C2: for every AND or XOR gate descriptor, seed, circuit id, instance id,
gate index and semantic bits `bA, bB ∈ {0,1}`, the 16-byte ciphertext stored
at byte offset `7 + 16*(2*permA + permB)` of the leaf produced by
`recompute_gate_leaf` (with `permA = bA XOR flipBit(a)`,
`permB = bB XOR flipBit(b)`), XOR-ed with
`expand_pad (compute_row_key … permA permB L(a,bA) L(b,bB))`, equals the
output label `L(c, truth(opcode, bA, bB))`. -/
theorem claim_C2 (seed cid : List Nat) (iid gidx : Nat) (g : GateDesc)
    (bA bB pa pb : Nat)
    (hg : g.gate_type = GateType.And ∨ g.gate_type = GateType.Xor)
    (hA : bA ≤ 1) (hB : bB ≤ 1)
    (hpa : pa = bA ^^^ derive_wire_flip_bit cid iid g.wire_a seed)
    (hpb : pb = bB ^^^ derive_wire_flip_bit cid iid g.wire_b seed) :
    xor16
      (((recompute_gate_leaf seed cid iid gidx g).drop (7 + 16 * (2 * pa + pb))).take 16)
      (expand_pad (compute_row_key cid iid gidx pa pb
        (derive_wire_label cid iid g.wire_a bA seed)
        (derive_wire_label cid iid g.wire_b bB seed))) =
      derive_wire_label cid iid g.wire_c (truth_table g.gate_type bA bB) seed :=
  leaf_row_decode seed cid iid gidx g bA bB pa pb hg hA hB hpa hpb

/-- Witness for C2 at the AND gate `(7, 8, 9)` of the pinned fixture. -/
theorem claim_C2_witness :
    (GateDesc.mk GateType.And 7 8 9).gate_type = GateType.And ∧
    xor16
      (((recompute_gate_leaf zero32 zero32 3 9 ⟨GateType.And, 7, 8, 9⟩).drop
        (7 + 16 * (2 * (1 ^^^ derive_wire_flip_bit zero32 3
            (GateDesc.mk GateType.And 7 8 9).wire_a zero32) +
          (0 ^^^ derive_wire_flip_bit zero32 3
            (GateDesc.mk GateType.And 7 8 9).wire_b zero32)))).take 16)
      (expand_pad (compute_row_key zero32 3 9
        (1 ^^^ derive_wire_flip_bit zero32 3
          (GateDesc.mk GateType.And 7 8 9).wire_a zero32)
        (0 ^^^ derive_wire_flip_bit zero32 3
          (GateDesc.mk GateType.And 7 8 9).wire_b zero32)
        (derive_wire_label zero32 3 (GateDesc.mk GateType.And 7 8 9).wire_a 1
          zero32)
        (derive_wire_label zero32 3 (GateDesc.mk GateType.And 7 8 9).wire_b 0
          zero32))) =
      derive_wire_label zero32 3 (GateDesc.mk GateType.And 7 8 9).wire_c
        (truth_table (GateDesc.mk GateType.And 7 8 9).gate_type 1 0) zero32 :=
  ⟨rfl, claim_C2 zero32 zero32 3 9 ⟨GateType.And, 7, 8, 9⟩ 1 0 _ _ (Or.inl rfl)
    (by decide) (by decide) rfl rfl⟩

/-- C3: the LSB of byte 0 of `derive_wire_label` equals
`derive_wire_flip_bit XOR b` for every circuit id, instance id, wire id,
seed and semantic bit `b ∈ {0,1}`. -/
theorem claim_C3 (cid seed : List Nat) (iid w b : Nat) (hb : b ≤ 1) :
    get_permutation_bit (derive_wire_label cid iid w b seed) =
      derive_wire_flip_bit cid iid w seed ^^^ b :=
  label_perm_bit cid seed iid w b hb

/-- Witness for C3 at wire 7, semantic bit 1 of the pinned fixture. -/
theorem claim_C3_witness :
    (1 : Nat) ≤ 1 ∧
    get_permutation_bit (derive_wire_label zero32 3 7 1 zero32) =
      derive_wire_flip_bit zero32 3 7 zero32 ^^^ 1 :=
  ⟨by decide, claim_C3 zero32 zero32 3 7 1 (by decide)⟩

/-- C4: for a non-empty block-hash sequence and any index `i`, the IH proof
is empty for a single block and otherwise is the prefix state after folding
blocks `0..i-1` followed by the suffix blocks; and `verify_ih_proof` accepts
the proof against `incremental_root_from_hashes`. -/
theorem claim_C4 (hashes : List (List Nat)) (i : Nat) (hne : hashes ≠ [])
    (hi : i < hashes.length) :
    ih_proof_from_hashes hashes i =
      (if hashes.length = 1 then ([] : List (List Nat))
       else ((hashes.take i).foldl inc_hash zero32) :: hashes.drop (i + 1)) ∧
    verify_ih_proof (hashes.getD i zero32) (ih_proof_from_hashes hashes i)
      (incremental_root_from_hashes hashes) = true := by
  constructor
  · rfl
  · unfold verify_ih_proof ih_proof_from_hashes incremental_root_from_hashes
    by_cases h1 : hashes.length = 1
    · rw [if_pos h1]
      match hashes, h1 with
      | [b], _ =>
        have hi0 : i = 0 := by omega
        subst hi0
        simp
    · rw [if_neg h1]
      simp only [List.drop_succ_cons, List.foldl_cons]
      rw [beq_iff_eq]
      have hdrop : hashes.drop i = hashes.getD i zero32 :: hashes.drop (i + 1) := by
        rw [List.getD_eq_getElem _ _ hi]
        exact List.drop_eq_getElem_cons hi
      conv_rhs => rw [← List.take_append_drop i hashes]
      rw [List.foldl_append, hdrop, List.foldl_cons]
      rfl

/-- Witness for C4 on a two-block chain at index 1. -/
theorem claim_C4_witness :
    verify_ih_proof ([zero32, zero32].getD 1 zero32)
      (ih_proof_from_hashes [zero32, zero32] 1)
      (incremental_root_from_hashes [zero32, zero32]) = true :=
  (claim_C4 [zero32, zero32] 1 (by simp) (by simp)).2

/-- C5: for every non-empty leaf-hash list and index into it, `verify_proof`
accepts `merkle_proof_from_hashes` against `merkle_root_from_hashes`
(sorted-pair hashing with last-node duplication on odd levels). -/
theorem claim_C5 (hashes : List (List Nat)) (i : Nat) (hne : hashes ≠ [])
    (hi : i < hashes.length) :
    verify_proof (hashes.getD i zero32) (merkle_proof_from_hashes hashes i)
      (merkle_root_from_hashes hashes) = true := by
  unfold verify_proof merkle_proof_from_hashes merkle_root_from_hashes
  rw [merkle_fold_root hashes i hi]
  exact beq_self_eq_true _

/-- Witness for C5 on a three-leaf tree at index 2 (duplication path). -/
theorem claim_C5_witness :
    verify_proof ([zero32, [1], [2]].getD 2 zero32)
      (merkle_proof_from_hashes [zero32, [1], [2]] 2)
      (merkle_root_from_hashes [zero32, [1], [2]]) = true :=
  claim_C5 [zero32, [1], [2]] 2 (by simp) (by simp)

/-! ## The duplicated pipeline of the `off-chain` crate
(`off-chain/src/consensus.rs`, `off-chain/src/garble.rs`). Both crates link
the same external `sha3` library, modelled by the shared `keccakBytes`. -/

namespace OffChain

/-- `keccak256` of the `off-chain` crate. -/
def keccak256 (parts : List (List Nat)) : List Nat :=
  keccakBytes parts.flatten

/-- `uint256_from_u64` of the `off-chain` crate. -/
def uint256_from_u64 (value : Nat) : List Nat :=
  List.replicate 24 0 ++ be8 value

/-- `derive_wire_flip_bit` of the `off-chain` crate. -/
def derive_wire_flip_bit (circuit_id : List Nat) (instance_id wire_id : Nat)
    (seed : List Nat) : Nat :=
  let inst := uint256_from_u64 instance_id
  let h := keccak256 [[0x50], circuit_id, inst, be2 wire_id, seed]
  h.getD 31 0 &&& 1

/-- `derive_wire_label` of the `off-chain` crate. -/
def derive_wire_label (circuit_id : List Nat) (instance_id wire_id semantic_bit : Nat)
    (seed : List Nat) : List Nat :=
  let inst := uint256_from_u64 instance_id
  let bit := [semantic_bit &&& 1]
  let h := keccak256 [[0x4C], circuit_id, inst, be2 wire_id, bit, seed]
  let label := h.take 16
  let flip := derive_wire_flip_bit circuit_id instance_id wire_id seed
  let permute := (flip ^^^ (semantic_bit &&& 1)) &&& 1
  label.set 0 ((label.getD 0 0 &&& 0xFE) ||| permute)

/-- `compute_row_key` of the `off-chain` crate. -/
def compute_row_key (circuit_id : List Nat) (instance_id gate_index perm_a perm_b : Nat)
    (label_a label_b : List Nat) : List Nat :=
  let inst := uint256_from_u64 instance_id
  let gate := uint256_from_u64 gate_index
  keccak256 [[0x4B], circuit_id, inst, gate, [perm_a &&& 1], [perm_b &&& 1],
    label_a, label_b]

/-- `expand_pad` of the `off-chain` crate. -/
def expand_pad (row_key : List Nat) : List Nat :=
  (keccak256 [[0x50, 0x41, 0x44], row_key]).take 16

/-- `xor16` of the `off-chain` crate. -/
def xor16 (a b : List Nat) : List Nat :=
  List.zipWith (fun x y => x ^^^ y) a b

/-- `encode_leaf` of the `off-chain` crate. -/
def encode_leaf (gate : GateDesc) (rows : List (List Nat)) : List Nat :=
  [gate.gate_type.toByte] ++ be2 gate.wire_a ++ be2 gate.wire_b ++ be2 gate.wire_c ++
    rows.flatten

/-- `truth_table` of the `off-chain` crate. -/
def truth_table (gate_type : GateType) (a b : Nat) : Nat :=
  match gate_type with
  | .And => (a &&& b) &&& 1
  | .Xor => (a ^^^ b) &&& 1
  | .Not => 0

/-- `recompute_gate_leaf` of the `off-chain` crate. -/
def recompute_gate_leaf (seed circuit_id : List Nat) (instance_id gate_index : Nat)
    (gate : GateDesc) : List Nat :=
  let rows :=
    if gate.gate_type ≠ GateType.Not then
      let flip_a := derive_wire_flip_bit circuit_id instance_id gate.wire_a seed
      let flip_b := derive_wire_flip_bit circuit_id instance_id gate.wire_b seed
      let row := fun perm_a perm_b =>
        let bit_a := perm_a ^^^ flip_a
        let bit_b := perm_b ^^^ flip_b
        let out_bit := truth_table gate.gate_type bit_a bit_b
        let label_a := derive_wire_label circuit_id instance_id gate.wire_a bit_a seed
        let label_b := derive_wire_label circuit_id instance_id gate.wire_b bit_b seed
        let out_label := derive_wire_label circuit_id instance_id gate.wire_c out_bit seed
        let row_key := compute_row_key circuit_id instance_id gate_index perm_a perm_b
          label_a label_b
        xor16 out_label (expand_pad row_key)
      [row 0 0, row 0 1, row 1 0, row 1 1]
    else
      List.replicate 4 (List.replicate 16 0)
  encode_leaf gate rows

end OffChain

/-! ## Alice CLI core (`off-chain-alice/src/main.rs`) -/

/-- Session parameters shared by the Alice commands. -/
structure SessionConfig where
  bit_width : Nat
  circuit_id : List Nat
  master_seed : List Nat

/-- Mirrors `hash_output_label`: hash of the zero-padded 16-byte label. -/
def hash_output_label (label16 : List Nat) : List Nat :=
  keccak256 [label16_to_bytes32 label16]

/-- Mirrors `derive_anchor_lists`: for each instance, the `h0` list gets the
hash of the semantic-1 output label and the `h1` list the hash of the
semantic-0 output label (the loop over both vectors is modelled as one map
producing the pair of lists). -/
def derive_anchor_lists (config : SessionConfig) :
    Except String (List (List Nat) × List (List Nat)) :=
  let gates := build_millionaires_layout config.bit_width
  match millionaires_gt_output_wire gates config.bit_width with
  | .error e => .error e
  | .ok out_wire =>
    let pairs := (List.range CUT_AND_CHOOSE_N).map fun instance_id =>
      let seed := derive_instance_seed config.master_seed config.circuit_id instance_id
      (hash_output_label (derive_wire_label config.circuit_id instance_id out_wire 1 seed),
       hash_output_label (derive_wire_label config.circuit_id instance_id out_wire 0 seed))
    .ok (pairs.map Prod.fst, pairs.map Prod.snd)

/-- The 7-field commitment tuple assembled by `cmd_submit_commitments` for
one instance: `(comSeed, rootGC, blobHash, 0, 0, h0[i], h1[i])`. -/
def commitment_tuple (com_seed root_gc blob_hash h0i h1i : List Nat) :
    List (List Nat) :=
  [com_seed, root_gc, blob_hash, zero32, zero32, h0i, h1i]

/-! ## Claim theorems C7, C10 -/

/-- C7: with the two lists of `derive_anchor_lists` supplied as the
`--h0`/`--h1` arguments, the sixth field of the commitment tuple for
instance `i` is the hash of the zero-padded semantic-1 output label and the
seventh field the hash of the zero-padded semantic-0 output label. -/
theorem claim_C7 (cfg : SessionConfig) (i : Nat) (h0s h1s : List (List Nat))
    (com root_gc blob : List Nat) (ow : Nat)
    (hok : derive_anchor_lists cfg = .ok (h0s, h1s))
    (hw : millionaires_gt_output_wire (build_millionaires_layout cfg.bit_width)
      cfg.bit_width = .ok ow)
    (hi : i < CUT_AND_CHOOSE_N) :
    (commitment_tuple com root_gc blob (h0s.getD i []) (h1s.getD i [])).getD 5 [] =
      keccak256 [label16_to_bytes32 (derive_wire_label cfg.circuit_id i ow 1
        (derive_instance_seed cfg.master_seed cfg.circuit_id i))] ∧
    (commitment_tuple com root_gc blob (h0s.getD i []) (h1s.getD i [])).getD 6 [] =
      keccak256 [label16_to_bytes32 (derive_wire_label cfg.circuit_id i ow 0
        (derive_instance_seed cfg.master_seed cfg.circuit_id i))] := by
  unfold derive_anchor_lists at hok
  simp only [hw] at hok
  have hpair := Except.ok.inj hok
  rw [Prod.mk.injEq] at hpair
  have hh0 : h0s = ((List.range CUT_AND_CHOOSE_N).map fun instance_id =>
      hash_output_label (derive_wire_label cfg.circuit_id instance_id ow 1
        (derive_instance_seed cfg.master_seed cfg.circuit_id instance_id))) := by
    rw [← hpair.1, List.map_map]
    rfl
  have hh1 : h1s = ((List.range CUT_AND_CHOOSE_N).map fun instance_id =>
      hash_output_label (derive_wire_label cfg.circuit_id instance_id ow 0
        (derive_instance_seed cfg.master_seed cfg.circuit_id instance_id))) := by
    rw [← hpair.2, List.map_map]
    rfl
  have hget : ∀ (f : Nat → List Nat),
      (((List.range CUT_AND_CHOOSE_N).map f).getD i []) = f i := by
    intro f
    rw [List.getD_eq_getElem _ _ (by simpa using hi)]
    simp
  subst hh0 hh1
  constructor
  · show (((List.range CUT_AND_CHOOSE_N).map _).getD i []) = _
    rw [hget]
    rfl
  · show (((List.range CUT_AND_CHOOSE_N).map _).getD i []) = _
    rw [hget]
    rfl

/-- Witness for C7 at `bit_width = 1`, instance 3. -/
theorem claim_C7_witness :
    derive_anchor_lists ⟨1, zero32, zero32⟩ =
      .ok (((List.range CUT_AND_CHOOSE_N).map fun instance_id =>
        (hash_output_label (derive_wire_label zero32 instance_id 5 1
            (derive_instance_seed zero32 zero32 instance_id)),
         hash_output_label (derive_wire_label zero32 instance_id 5 0
            (derive_instance_seed zero32 zero32 instance_id)))).map Prod.fst,
        ((List.range CUT_AND_CHOOSE_N).map fun instance_id =>
        (hash_output_label (derive_wire_label zero32 instance_id 5 1
            (derive_instance_seed zero32 zero32 instance_id)),
         hash_output_label (derive_wire_label zero32 instance_id 5 0
            (derive_instance_seed zero32 zero32 instance_id)))).map Prod.snd) ∧
    (3 : Nat) < CUT_AND_CHOOSE_N ∧
    ((commitment_tuple zero32 zero32 zero32
        ((((List.range CUT_AND_CHOOSE_N).map fun instance_id =>
        (hash_output_label (derive_wire_label zero32 instance_id 5 1
            (derive_instance_seed zero32 zero32 instance_id)),
         hash_output_label (derive_wire_label zero32 instance_id 5 0
            (derive_instance_seed zero32 zero32 instance_id)))).map Prod.fst).getD 3 [])
        ((((List.range CUT_AND_CHOOSE_N).map fun instance_id =>
        (hash_output_label (derive_wire_label zero32 instance_id 5 1
            (derive_instance_seed zero32 zero32 instance_id)),
         hash_output_label (derive_wire_label zero32 instance_id 5 0
            (derive_instance_seed zero32 zero32 instance_id)))).map Prod.snd).getD 3 [])).getD 5 [] =
      keccak256 [label16_to_bytes32 (derive_wire_label zero32 3 5 1
        (derive_instance_seed zero32 zero32 3))] ∧
    (commitment_tuple zero32 zero32 zero32
        ((((List.range CUT_AND_CHOOSE_N).map fun instance_id =>
        (hash_output_label (derive_wire_label zero32 instance_id 5 1
            (derive_instance_seed zero32 zero32 instance_id)),
         hash_output_label (derive_wire_label zero32 instance_id 5 0
            (derive_instance_seed zero32 zero32 instance_id)))).map Prod.fst).getD 3 [])
        ((((List.range CUT_AND_CHOOSE_N).map fun instance_id =>
        (hash_output_label (derive_wire_label zero32 instance_id 5 1
            (derive_instance_seed zero32 zero32 instance_id)),
         hash_output_label (derive_wire_label zero32 instance_id 5 0
            (derive_instance_seed zero32 zero32 instance_id)))).map Prod.snd).getD 3 [])).getD 6 [] =
      keccak256 [label16_to_bytes32 (derive_wire_label zero32 3 5 0
        (derive_instance_seed zero32 zero32 3))]) :=
  ⟨rfl, by decide,
    claim_C7 ⟨1, zero32, zero32⟩ 3 _ _ zero32 zero32 zero32 5 rfl rfl (by decide)⟩

/-- C10: the garbling pipeline duplicated in the `off-chain` crate is
extensionally equal to the shared-crate pipeline: identical flip bits,
labels, row keys, pads and 71-byte gate leaves for all inputs. -/
theorem claim_C10 (seed cid la lb rk : List Nat) (iid gidx w b pa pb : Nat)
    (g : GateDesc) :
    OffChain.recompute_gate_leaf seed cid iid gidx g =
      recompute_gate_leaf seed cid iid gidx g ∧
    OffChain.derive_wire_flip_bit cid iid w seed =
      derive_wire_flip_bit cid iid w seed ∧
    OffChain.derive_wire_label cid iid w b seed =
      derive_wire_label cid iid w b seed ∧
    OffChain.compute_row_key cid iid gidx pa pb la lb =
      compute_row_key cid iid gidx pa pb la lb ∧
    OffChain.expand_pad rk = expand_pad rk :=
  ⟨rfl, rfl, rfl, rfl, rfl⟩

/-! ## Bob CLI core (`off-chain-bob/src/main.rs`) -/

/-- Mirrors `PrepareDisputeConfig`. -/
structure PrepareDisputeConfig where
  bit_width : Nat
  circuit_id : List Nat
  instance_id : Nat
  seed : List Nat
  claimed_leaves : List (List Nat)
  gate_index : Option Nat
  allow_false_challenge : Bool
  expected_root_gc : Option (List Nat)

/-- Mirrors `PreparedDispute`. -/
structure PreparedDispute where
  gate_index : Nat
  gate : GateDesc
  claimed_leaf : List Nat
  expected_leaf : List Nat
  mismatch_indices : List Nat
  root_gc : List Nat
  layout_root : List Nat
  ih_proof : List (List Nat)
  layout_proof : List (List Nat)

/-- The enumerated `filter_map` collecting indices where claimed and
canonical leaves differ. -/
def mismatchIndicesAux : List (List Nat) → List (List Nat) → Nat → List Nat
  | [], _, _ => []
  | _ :: _, [], _ => []
  | c :: cs, e :: es, idx =>
      if c ≠ e then idx :: mismatchIndicesAux cs es (idx + 1)
      else mismatchIndicesAux cs es (idx + 1)

/-- The enumerated `gc_block_hash` map over claimed leaves. -/
def gcBlockHashesAux : Nat → List (List Nat) → List (List Nat)
  | _, [] => []
  | idx, l :: rest => gc_block_hash idx l :: gcBlockHashesAux (idx + 1) rest

/-- The enumerated `layout_leaf_hash` map over the gate list. -/
def layoutLeafHashesAux : Nat → List GateDesc → List (List Nat)
  | _, [] => []
  | idx, g :: rest => layout_leaf_hash idx g :: layoutLeafHashesAux (idx + 1) rest

/-- Mirrors `prepare_dispute_packet`. The `mismatch_indices[0]` read in the
source is guarded by the no-mismatch check, so its panic branch is modelled
with `headD` (unreachable). -/
def prepare_dispute_packet (config : PrepareDisputeConfig) :
    Except String PreparedDispute :=
  let gates := build_millionaires_layout config.bit_width
  if config.claimed_leaves.length ≠ gates.length then
    .error "claimed leaves count does not match circuit gate count"
  else
    let layout : CircuitLayout := ⟨config.circuit_id, config.instance_id, gates⟩
    let expected_leaves := garble_circuit config.seed layout
    let mismatch_indices := mismatchIndicesAux config.claimed_leaves expected_leaves 0
    if mismatch_indices.isEmpty && config.gate_index.isNone then
      .error "No mismatches found between claimed and expected leaves; dispute packet not created"
    else
      let selected := config.gate_index.getD (mismatch_indices.headD 0)
      if gates.length ≤ selected then
        .error "gate index out of range"
      else if !(mismatch_indices.contains selected) && !config.allow_false_challenge then
        .error "selected gate matches expected leaf; refusing false challenge"
      else
        let block_hashes := gcBlockHashesAux 0 config.claimed_leaves
        let root_gc := incremental_root_from_hashes block_hashes
        if config.expected_root_gc.any (fun expected => root_gc != expected) then
          .error "computed rootGC does not match expected"
        else
          let layout_leaf_hashes := layoutLeafHashesAux 0 gates
          .ok
          { gate_index := selected
            gate := gates.getD selected ⟨.And, 0, 0, 0⟩
            claimed_leaf := config.claimed_leaves.getD selected []
            expected_leaf := expected_leaves.getD selected []
            mismatch_indices := mismatch_indices
            root_gc := root_gc
            layout_root := merkle_root_from_hashes layout_leaf_hashes
            ih_proof := ih_proof_from_hashes block_hashes selected
            layout_proof := merkle_proof_from_hashes layout_leaf_hashes selected }

/-- Mismatch indices over identical lists are empty. -/
theorem mismatchIndicesAux_self : ∀ (l : List (List Nat)) (idx : Nat),
    mismatchIndicesAux l l idx = [] := by
  intro l
  induction l with
  | nil => intro idx; rfl
  | cons c cs ih =>
    intro idx
    unfold mismatchIndicesAux
    rw [if_neg (by simp)]
    exact ih (idx + 1)

/-- Membership characterisation of the mismatch index list. -/
theorem mem_mismatchIndicesAux : ∀ (c e : List (List Nat)) (idx k : Nat),
    k ∈ mismatchIndicesAux c e idx ↔
      (idx ≤ k ∧ k - idx < c.length ∧ k - idx < e.length ∧
        c.getD (k - idx) [] ≠ e.getD (k - idx) []) := by
  intro c
  induction c with
  | nil =>
    intro e idx k
    simp [mismatchIndicesAux]
  | cons x cs ih =>
    intro e idx k
    cases e with
    | nil => simp [mismatchIndicesAux]
    | cons y es =>
      unfold mismatchIndicesAux
      by_cases hxy : x ≠ y
      · rw [if_pos hxy]
        constructor
        · intro hm
          rcases List.mem_cons.mp hm with h | h
          · subst h
            simpa using hxy
          · have := (ih es (idx + 1) k).mp h
            refine ⟨by omega, by simp; omega, by simp; omega, ?_⟩
            have hs : k - idx = (k - (idx + 1)) + 1 := by omega
            rw [hs]
            simpa using this.2.2.2
        · intro ⟨h1, h2, h3, h4⟩
          by_cases hk : k = idx
          · subst hk
            exact List.mem_cons_self _ _
          · refine List.mem_cons_of_mem _ ((ih es (idx + 1) k).mpr
              ⟨by omega, by simp at h2; omega, by simp at h3; omega, ?_⟩)
            have hs : k - idx = (k - (idx + 1)) + 1 := by omega
            rw [hs] at h4
            simpa using h4
      · rw [if_neg hxy]
        push_neg at hxy
        subst hxy
        rw [ih es (idx + 1) k]
        constructor
        · intro ⟨h1, h2, h3, h4⟩
          refine ⟨by omega, by simp; omega, by simp; omega, ?_⟩
          have hs : k - idx = (k - (idx + 1)) + 1 := by omega
          rw [hs]
          simpa using h4
        · intro ⟨h1, h2, h3, h4⟩
          by_cases hk : k = idx
          · subst hk
            simp at h4
          · refine ⟨by omega, by simp at h2; omega, by simp at h3; omega, ?_⟩
            have hs : k - idx = (k - (idx + 1)) + 1 := by omega
            rw [hs] at h4
            simpa using h4

/-- The head of the mismatch list is its least element: it is a mismatch and
everything before it matches. -/
theorem mismatchIndicesAux_head : ∀ (c e : List (List Nat)) (idx : Nat),
    mismatchIndicesAux c e idx ≠ [] →
      (idx ≤ (mismatchIndicesAux c e idx).headD 0 ∧
       (mismatchIndicesAux c e idx).headD 0 - idx < c.length ∧
       (mismatchIndicesAux c e idx).headD 0 - idx < e.length ∧
       c.getD ((mismatchIndicesAux c e idx).headD 0 - idx) [] ≠
         e.getD ((mismatchIndicesAux c e idx).headD 0 - idx) [] ∧
       ∀ j < (mismatchIndicesAux c e idx).headD 0 - idx,
         c.getD j [] = e.getD j []) := by
  intro c
  induction c with
  | nil => intro e idx h; simp [mismatchIndicesAux] at h
  | cons x cs ih =>
    intro e idx h
    cases e with
    | nil => simp [mismatchIndicesAux] at h
    | cons y es =>
      unfold mismatchIndicesAux at h ⊢
      by_cases hxy : x ≠ y
      · rw [if_pos hxy] at h ⊢
        refine ⟨by simp, by simp, by simp, by simpa using hxy, ?_⟩
        intro j hj
        simp at hj
      · rw [if_neg hxy] at h ⊢
        push_neg at hxy
        have hrec := ih es (idx + 1) h
        have hr1 := hrec.1
        have hr2 := hrec.2.1
        have hr3 := hrec.2.2.1
        refine ⟨by omega, ?_, ?_, ?_, ?_⟩
        · simp only [List.length_cons]; omega
        · simp only [List.length_cons]; omega
        · have hs : (mismatchIndicesAux cs es (idx + 1)).headD 0 - idx =
              ((mismatchIndicesAux cs es (idx + 1)).headD 0 - (idx + 1)) + 1 := by
            omega
          rw [hs]
          simpa using hrec.2.2.2.1
        · intro j hj
          match j with
          | 0 => simpa using hxy
          | (j' + 1) =>
            have := hrec.2.2.2.2 j' (by omega)
            simpa using this

/-- `garbleAux` preserves the gate count. -/
theorem garbleAux_length (seed cid : List Nat) (iid : Nat) :
    ∀ (gates : List GateDesc) (idx : Nat),
      (garbleAux seed cid iid idx gates).length = gates.length := by
  intro gates
  induction gates with
  | nil => intro idx; rfl
  | cons g rest ih => intro idx; simp [garbleAux, ih]

/-- `garble_circuit` produces one leaf per gate. -/
theorem garble_circuit_length (seed : List Nat) (layout : CircuitLayout) :
    (garble_circuit seed layout).length = layout.gates.length :=
  garbleAux_length seed layout.circuit_id layout.instance_id layout.gates 0

/-! ## Claim theorem C6 -/

/-- C6: `prepare_dispute_packet` with a claimed-leaf list matching the gate
count: (a) errs when all claimed leaves are canonical and no gate index is
given; (b) errs when the selected gate's claimed leaf is canonical and the
override is unset; (c) with no gate index, no expected-root check and at
least one mismatch, it returns a packet whose gate index is the smallest
mismatching one. -/
theorem claim_C6 (cfg : PrepareDisputeConfig)
    (hlen : cfg.claimed_leaves.length =
      (build_millionaires_layout cfg.bit_width).length) :
    (cfg.claimed_leaves = garble_circuit cfg.seed
        ⟨cfg.circuit_id, cfg.instance_id, build_millionaires_layout cfg.bit_width⟩ →
      cfg.gate_index = none →
      prepare_dispute_packet cfg = .error
        "No mismatches found between claimed and expected leaves; dispute packet not created") ∧
    (∀ k, cfg.gate_index = some k →
      k < (build_millionaires_layout cfg.bit_width).length →
      cfg.claimed_leaves.getD k [] = (garble_circuit cfg.seed
        ⟨cfg.circuit_id, cfg.instance_id, build_millionaires_layout cfg.bit_width⟩).getD k [] →
      cfg.allow_false_challenge = false →
      prepare_dispute_packet cfg = .error
        "selected gate matches expected leaf; refusing false challenge") ∧
    (cfg.gate_index = none → cfg.expected_root_gc = none →
      (∃ i, i < cfg.claimed_leaves.length ∧
        cfg.claimed_leaves.getD i [] ≠ (garble_circuit cfg.seed
          ⟨cfg.circuit_id, cfg.instance_id, build_millionaires_layout cfg.bit_width⟩).getD i []) →
      ∃ pkt, prepare_dispute_packet cfg = .ok pkt ∧
        cfg.claimed_leaves.getD pkt.gate_index [] ≠ (garble_circuit cfg.seed
          ⟨cfg.circuit_id, cfg.instance_id, build_millionaires_layout cfg.bit_width⟩).getD pkt.gate_index [] ∧
        ∀ j < pkt.gate_index,
          cfg.claimed_leaves.getD j [] = (garble_circuit cfg.seed
            ⟨cfg.circuit_id, cfg.instance_id, build_millionaires_layout cfg.bit_width⟩).getD j []) := by
  set G := build_millionaires_layout cfg.bit_width with hG
  set E := garble_circuit cfg.seed ⟨cfg.circuit_id, cfg.instance_id, G⟩ with hE
  have hlenE : E.length = G.length := garble_circuit_length _ _
  have hcond1 : ¬ (cfg.claimed_leaves.length ≠ G.length) := by
    rw [hlen]
    exact fun hc => hc rfl
  refine ⟨?_, ?_, ?_⟩
  · -- (a)
    intro hc hnone
    simp only [prepare_dispute_packet]
    rw [← hG, ← hE, if_neg hcond1, hc, mismatchIndicesAux_self, hnone]
    rfl
  · -- (b)
    intro k hsome hk hmatch hallow
    simp only [prepare_dispute_packet]
    rw [← hG, ← hE, if_neg hcond1, hsome]
    have hne : ¬ (List.isEmpty (mismatchIndicesAux cfg.claimed_leaves E 0) &&
        Option.isNone (some k)) = true := by
      simp
    rw [if_neg hne]
    have hsel : (some k).getD ((mismatchIndicesAux cfg.claimed_leaves E 0).headD 0) = k :=
      rfl
    rw [hsel, if_neg (by omega)]
    have hnm : k ∉ mismatchIndicesAux cfg.claimed_leaves E 0 := by
      intro hmem
      have := (mem_mismatchIndicesAux cfg.claimed_leaves E 0 k).mp hmem
      simp only [Nat.sub_zero] at this
      exact this.2.2.2 hmatch
    have hcont : (mismatchIndicesAux cfg.claimed_leaves E 0).contains k = false := by
      simpa using hnm
    rw [hcont, hallow]
    rfl
  · -- (c)
    intro hnone hroot hex
    simp only [prepare_dispute_packet]
    rw [← hG, ← hE, if_neg hcond1, hnone]
    obtain ⟨i, hi, hne⟩ := hex
    have hmem : i ∈ mismatchIndicesAux cfg.claimed_leaves E 0 := by
      refine (mem_mismatchIndicesAux cfg.claimed_leaves E 0 i).mpr ?_
      simp only [Nat.sub_zero]
      exact ⟨Nat.zero_le _, hi, by omega, hne⟩
    have hMne : mismatchIndicesAux cfg.claimed_leaves E 0 ≠ [] := by
      intro hc
      rw [hc] at hmem
      simp at hmem
    have hhead := mismatchIndicesAux_head cfg.claimed_leaves E 0 hMne
    simp only [Nat.sub_zero] at hhead
    set k := (mismatchIndicesAux cfg.claimed_leaves E 0).headD 0 with hk
    have hkempty : ((mismatchIndicesAux cfg.claimed_leaves E 0).isEmpty &&
        (none : Option Nat).isNone) = false := by
      rcases hM : mismatchIndicesAux cfg.claimed_leaves E 0 with _ | ⟨m, ms⟩
      · exact absurd hM hMne
      · rfl
    rw [hkempty]
    simp only [Bool.false_eq_true, if_false]
    have hsel : (none : Option Nat).getD k = k := rfl
    rw [hsel]
    rw [if_neg (by omega)]
    have hkmem : k ∈ mismatchIndicesAux cfg.claimed_leaves E 0 := by
      refine (mem_mismatchIndicesAux cfg.claimed_leaves E 0 k).mpr ?_
      simp only [Nat.sub_zero]
      exact ⟨Nat.zero_le _, hhead.2.1, hhead.2.2.1, hhead.2.2.2.1⟩
    have hcont : (mismatchIndicesAux cfg.claimed_leaves E 0).contains k = true := by
      simpa using hkmem
    rw [hcont]
    simp only [Bool.not_true, Bool.false_and, Bool.false_eq_true, if_false]
    rw [hroot]
    refine ⟨_, rfl, ?_, ?_⟩
    · exact hhead.2.2.2.1
    · exact hhead.2.2.2.2

/-- Canonical leaves of the width-1 dispute fixture. -/
def disputeFixtureLeaves : List (List Nat) :=
  garble_circuit zero32 ⟨zero32, 0, build_millionaires_layout 1⟩

/-- Dispute fixture: all leaves canonical, no gate index. -/
def disputeCfgA : PrepareDisputeConfig :=
  ⟨1, zero32, 0, zero32, disputeFixtureLeaves, none, false, none⟩

/-- Dispute fixture: gate 0 selected although its leaf is canonical. -/
def disputeCfgB : PrepareDisputeConfig :=
  ⟨1, zero32, 0, zero32, disputeFixtureLeaves, some 0, false, none⟩

/-- Dispute fixture: leaf 0 corrupted, no gate index supplied. -/
def disputeCfgC : PrepareDisputeConfig :=
  ⟨1, zero32, 0, zero32, disputeFixtureLeaves.set 0 (List.replicate 71 9),
    none, false, none⟩

/-- Witness for C6 on the three width-1 fixtures. -/
theorem claim_C6_witness :
    prepare_dispute_packet disputeCfgA = .error
      "No mismatches found between claimed and expected leaves; dispute packet not created" ∧
    prepare_dispute_packet disputeCfgB = .error
      "selected gate matches expected leaf; refusing false challenge" ∧
    ∃ pkt, prepare_dispute_packet disputeCfgC = .ok pkt ∧
      disputeCfgC.claimed_leaves.getD pkt.gate_index [] ≠ (garble_circuit disputeCfgC.seed
        ⟨disputeCfgC.circuit_id, disputeCfgC.instance_id,
          build_millionaires_layout disputeCfgC.bit_width⟩).getD pkt.gate_index [] ∧
      ∀ j < pkt.gate_index,
        disputeCfgC.claimed_leaves.getD j [] = (garble_circuit disputeCfgC.seed
          ⟨disputeCfgC.circuit_id, disputeCfgC.instance_id,
            build_millionaires_layout disputeCfgC.bit_width⟩).getD j [] :=
  ⟨(claim_C6 disputeCfgA (garble_circuit_length zero32 _)).1 rfl rfl,
   (claim_C6 disputeCfgB (garble_circuit_length zero32 _)).2.1 0 rfl (by decide) rfl rfl,
   (claim_C6 disputeCfgC (by
      show (disputeFixtureLeaves.set 0 (List.replicate 71 9)).length = _
      rw [List.length_set]
      exact garble_circuit_length zero32 _)).2.2 rfl rfl
     ⟨0, by decide, by decide⟩⟩

/-! ## Evaluator totality facts (C9) -/

/-- The wire-map maximum fold, as computed by `evaluate_garbled_circuit`. -/
def maxWireFold (gates : List GateDesc) (init : Nat) : Nat :=
  gates.foldl (fun m g => max (max (max m g.wire_a) g.wire_b) g.wire_c) init

/-- The fold does not decrease its seed. -/
theorem maxWireFold_ge_init : ∀ (gates : List GateDesc) (init : Nat),
    init ≤ maxWireFold gates init := by
  intro gates
  induction gates with
  | nil => intro init; exact Nat.le_refl _
  | cons g rest ih =>
    intro init
    calc init ≤ max (max (max init g.wire_a) g.wire_b) g.wire_c := by omega
    _ ≤ _ := ih _

/-- Every gate's wires are bounded by the fold. -/
theorem maxWireFold_ge_mem : ∀ (gates : List GateDesc) (init : Nat) (g : GateDesc),
    g ∈ gates → g.wire_a ≤ maxWireFold gates init ∧
      g.wire_b ≤ maxWireFold gates init ∧ g.wire_c ≤ maxWireFold gates init := by
  intro gates
  induction gates with
  | nil => intro init g hg; simp at hg
  | cons x rest ih =>
    intro init g hg
    rcases List.mem_cons.mp hg with h | h
    · subst h
      have hstep := maxWireFold_ge_init rest (max (max (max init g.wire_a) g.wire_b) g.wire_c)
      unfold maxWireFold at hstep ⊢
      simp only [List.foldl_cons]
      omega
    · exact ih _ g h

/-- The fold is bounded by any bound dominating the seed and all wires. -/
theorem maxWireFold_le : ∀ (gates : List GateDesc) (init B : Nat), init ≤ B →
    (∀ g ∈ gates, g.wire_a ≤ B ∧ g.wire_b ≤ B ∧ g.wire_c ≤ B) →
    maxWireFold gates init ≤ B := by
  intro gates
  induction gates with
  | nil => intro init B h _; exact h
  | cons g rest ih =>
    intro init B h hall
    have hg := hall g (by simp)
    unfold maxWireFold at ih ⊢
    simp only [List.foldl_cons]
    show List.foldl _ (max (max (max init g.wire_a) g.wire_b) g.wire_c) rest ≤ B
    refine ih _ B (by omega) ?_
    intro g' hg'
    exact hall g' (List.mem_cons_of_mem _ hg')

/-- Reducing a bind of an `ok` value. -/
theorem ok_bind {e a b : Type} (x : a) (f : a → Except e b) :
    (Except.ok x : Except e a) >>= f = f x := rfl

/-- Populating input labels inside the map bounds succeeds and preserves
the map length. -/
theorem populateFrom_ok : ∀ (labels : List (List Nat)) (wl : List (Option (List Nat)))
    (start : Nat), start + labels.length ≤ wl.length →
    ∃ wl', populateFrom wl start labels = .ok wl' ∧ wl'.length = wl.length := by
  intro labels
  induction labels with
  | nil => intro wl start h; exact ⟨wl, rfl, rfl⟩
  | cons l rest ih =>
    intro wl start h
    have hlt : start < wl.length := by simp at h; omega
    have hset : setSlot wl start l = .ok (wl.set start (some l)) := by
      unfold setSlot
      rw [if_pos hlt]
    obtain ⟨wl', hok, hlen⟩ := ih (wl.set start (some l)) (start + 1)
      (by simp at h ⊢; omega)
    refine ⟨wl', ?_, by simp at hlen; simpa using hlen⟩
    unfold populateFrom
    rw [hset]
    simpa using hok

/-- The per-gate loop never aborts with an index panic when every gate wire
is inside th wire map, and it preserves the map length. -/
theorem evalGates_no_oob (cid : List Nat) (iid : Nat) (leaves : List (List Nat))
    (hints : List NotGateHint) : ∀ (gates : List GateDesc) (idx : Nat)
    (wl : List (Option (List Nat))),
    (∀ g ∈ gates, g.wire_a < wl.length ∧ g.wire_b < wl.length ∧ g.wire_c < wl.length) →
    evalGates cid iid leaves hints gates idx wl ≠ .error .oob ∧
    (∀ wl', evalGates cid iid leaves hints gates idx wl = .ok wl' →
      wl'.length = wl.length) := by
  intro gates
  induction gates with
  | nil =>
    intro idx wl hb
    constructor
    · intro hc
      cases hc
    · intro wl' h
      cases h
      rfl
  | cons g rest ih =>
    intro idx wl hb
    obtain ⟨hwa, hwb, hwc⟩ := hb g (by simp)
    have hrest : ∀ g' ∈ rest, g'.wire_a < wl.length ∧ g'.wire_b < wl.length ∧
        g'.wire_c < wl.length := fun g' hg' => hb g' (List.mem_cons_of_mem _ hg')
    have hga : getSlot wl g.wire_a = .ok (wl.getD g.wire_a none) := by
      unfold getSlot
      rw [if_pos hwa]
    have hgb : getSlot wl g.wire_b = .ok (wl.getD g.wire_b none) := by
      unfold getSlot
      rw [if_pos hwb]
    have hsetc : ∀ v, setSlot wl g.wire_c v = .ok (wl.set g.wire_c (some v)) := by
      intro v
      unfold setSlot
      rw [if_pos hwc]
    have hlenset : ∀ v, (wl.set g.wire_c (some v)).length = wl.length := by
      intro v
      simp
    have hrec : ∀ v, evalGates cid iid leaves hints rest (idx + 1)
        (wl.set g.wire_c (some v)) ≠ .error .oob ∧
        (∀ wl', evalGates cid iid leaves hints rest (idx + 1)
          (wl.set g.wire_c (some v)) = .ok wl' → wl'.length = wl.length) := by
      intro v
      have := ih (idx + 1) (wl.set g.wire_c (some v))
        (by rw [hlenset]; exact hrest)
      refine ⟨this.1, ?_⟩
      intro wl' h
      rw [this.2 wl' h, hlenset]
    unfold evalGates
    rw [hga]
    simp only [ok_bind]
    cases hslota : wl.getD g.wire_a none with
    | none =>
      constructor
      · intro hc
        cases hc
      · intro wl' h
        cases h
    | some labelA =>
      simp only [ok_bind]
      cases hgt : g.gate_type with
      | And | Xor =>
        rw [hgb]
        simp only [ok_bind]
        cases hslotb : wl.getD g.wire_b none with
        | none =>
          constructor
          · intro hc
            cases hc
          · intro wl' h
            cases h
        | some labelB =>
          simp only [ok_bind]
          cases hrow : row_ct_from_leaf (leaves.getD idx [])
              (2 * (labelA.getD 0 0 &&& 1) + (labelB.getD 0 0 &&& 1)) with
          | error e =>
            have he : e = .fail "row index out of range" := by
              unfold row_ct_from_leaf at hrow
              by_cases h3 : 3 < 2 * (labelA.getD 0 0 &&& 1) + (labelB.getD 0 0 &&& 1)
              · rw [if_pos h3] at hrow
                cases hrow
                rfl
              · rw [if_neg h3] at hrow
                cases hrow
            subst he
            constructor
            · intro hc
              cases hc
            · intro wl' h
              cases h
          | ok ct =>
            simp only [ok_bind]
            rw [hsetc]
            simp only [ok_bind]
            exact hrec _
      | Not =>
        cases hf : hints.find? (fun h => h.gate_index == idx) with
        | none =>
          constructor
          · intro hc
            cases hc
          · intro wl' h
            cases h
        | some hint =>
          simp only [ok_bind]
          by_cases h0 : labelA = hint.in_label0
          · rw [if_pos h0]
            try simp only [ok_bind]
            rw [hsetc]
            try simp only [ok_bind]
            exact hrec _
          · rw [if_neg h0]
            by_cases h1 : labelA = hint.in_label1
            · rw [if_pos h1]
              try simp only [ok_bind]
              rw [hsetc]
              try simp only [ok_bind]
              exact hrec _
            · rw [if_neg h1]
              constructor
              · intro hc
                cases hc
              · intro wl' h
                cases h

/-! ## Claim C9 -/

/-- C9 (amended): with at most 32768 Alice labels, `evaluate_garbled_circuit`
never aborts with an index panic (for arbitrary layouts, leaves, Bob labels,
hints and output wires), and the row index `2*permA + permB` computed from
label LSBs is at most 3, so `row_ct_from_leaf` succeeds on it. -/
theorem claim_C9 (layout : CircuitLayout) (leaves alice bob : List (List Nat))
    (hints : List NotGateHint) (output_wire : Nat)
    (hbw : alice.length ≤ 32768) :
    evaluate_garbled_circuit layout leaves alice bob hints output_wire ≠
      Except.error EvalErr.oob ∧
    ∀ leaf la lb : List Nat,
      2 * (la.getD 0 0 &&& 1) + (lb.getD 0 0 &&& 1) ≤ 3 ∧
      ∃ ct, row_ct_from_leaf leaf
        (2 * (la.getD 0 0 &&& 1) + (lb.getD 0 0 &&& 1)) = .ok ct := by
  have hrow : ∀ leaf la lb : List Nat,
      2 * (la.getD 0 0 &&& 1) + (lb.getD 0 0 &&& 1) ≤ 3 ∧
      ∃ ct, row_ct_from_leaf leaf
        (2 * (la.getD 0 0 &&& 1) + (lb.getD 0 0 &&& 1)) = .ok ct := by
    intro leaf la lb
    have h1 := and_one_le (la.getD 0 0)
    have h2 := and_one_le (lb.getD 0 0)
    constructor
    · omega
    · refine ⟨(leaf.drop (7 + 16 * (2 * (la.getD 0 0 &&& 1) +
        (lb.getD 0 0 &&& 1)))).take 16, ?_⟩
      unfold row_ct_from_leaf
      rw [if_neg (by omega)]
  refine ⟨?_, hrow⟩
  intro hc
  unfold evaluate_garbled_circuit at hc
  by_cases hl1 : leaves.length ≠ layout.gates.length
  · rw [if_pos hl1] at hc
    simp at hc
  · rw [if_neg hl1] at hc
    by_cases hl2 : bob.length ≠ alice.length
    · rw [if_pos hl2] at hc
      simp at hc
    · rw [if_neg hl2] at hc
      have hbob : bob.length = alice.length := by omega
      set init := (2 * alice.length - 1) % 65536 with hinit
      have hinitv : init = 2 * alice.length - 1 := Nat.mod_eq_of_lt (by omega)
      dsimp only at hc
      set mw := List.foldl
        (fun m g => max (max (max m g.wire_a) g.wire_b) g.wire_c) init
        layout.gates with hmw
      have hmwge : init ≤ mw := maxWireFold_ge_init layout.gates init
      have hlenr : (List.replicate (mw + 1) (none : Option (List Nat))).length =
          mw + 1 := by simp
      obtain ⟨wl1, hp1, hlen1⟩ := populateFrom_ok alice
        (List.replicate (mw + 1) none) 0 (by rw [hlenr]; omega)
      obtain ⟨wl2, hp2, hlen2⟩ := populateFrom_ok bob wl1 alice.length
        (by rw [hlen1, hlenr, hbob]; omega)
      have hbounds : ∀ g ∈ layout.gates, g.wire_a < wl2.length ∧
          g.wire_b < wl2.length ∧ g.wire_c < wl2.length := by
        intro g hg
        have hm := maxWireFold_ge_mem layout.gates init g hg
        have hm' : g.wire_a ≤ mw ∧ g.wire_b ≤ mw ∧ g.wire_c ≤ mw := hm
        rw [hlen2, hlen1, hlenr]
        omega
      have hng := evalGates_no_oob layout.circuit_id layout.instance_id leaves
        hints layout.gates 0 wl2 hbounds
      rw [hp1] at hc
      rw [ok_bind] at hc
      rw [hp2] at hc
      rw [ok_bind] at hc
      cases hev : evalGates layout.circuit_id layout.instance_id leaves hints
          layout.gates 0 wl2 with
      | error e =>
        rw [hev] at hc
        have he : e = EvalErr.oob := Except.error.inj hc
        subst he
        exact hng.1 hev
      | ok wl3 =>
        rw [hev, ok_bind] at hc
        by_cases ho : output_wire < wl3.length
        · rw [if_pos ho] at hc
          cases hm : wl3.getD output_wire none with
          | none => rw [hm] at hc; simp at hc
          | some l => rw [hm] at hc; simp at hc
        · rw [if_neg ho] at hc
          simp at hc

/-- Populating past the end of the wire map aborts with the index panic. -/
theorem populateFrom_oob : ∀ (labels : List (List Nat))
    (wl : List (Option (List Nat))) (start : Nat),
    wl.length < start + labels.length → start ≤ wl.length →
    populateFrom wl start labels = .error .oob := by
  intro labels
  induction labels with
  | nil => intro wl start h1 h2; simp at h1; omega
  | cons l rest ih =>
    intro wl start h1 h2
    by_cases hlt : start < wl.length
    · have hset : setSlot wl start l = .ok (wl.set start (some l)) := by
        unfold setSlot
        rw [if_pos hlt]
      unfold populateFrom
      rw [hset, ok_bind]
      refine ih _ (start + 1) ?_ ?_ <;> simp at h1 ⊢ <;> omega
    · have hset : setSlot wl start l = .error .oob := by
        unfold setSlot
        rw [if_neg hlt]
      unfold populateFrom
      rw [hset]
      rfl

/-- When the truncated wire map is smaller than Alice's label list, the
evaluator aborts with the index panic. -/
theorem evaluate_oob_of_big_alice (layout : CircuitLayout)
    (leaves alice bob : List (List Nat)) (hints : List NotGateHint) (ow n : Nat)
    (hlen : alice.length = n)
    (hl1 : leaves.length = layout.gates.length)
    (hl2 : bob.length = alice.length)
    (hbig : maxWireFold layout.gates ((2 * n - 1) % 65536) + 1 < n) :
    evaluate_garbled_circuit layout leaves alice bob hints ow =
      Except.error EvalErr.oob := by
  unfold evaluate_garbled_circuit
  rw [if_neg (by omega)]
  rw [if_neg (by omega)]
  dsimp only
  rw [populateFrom_oob alice _ 0 ?_ (Nat.zero_le _)]
  · rfl
  · simp only [List.length_replicate, Nat.zero_add, hlen]
    exact hbig

/-- C9 counterexample: with 32769 Alice and Bob labels and an empty layout,
the `as u16` cast truncates the wire-map size to 2 slots, and populating
Alice's third label indexes out of bounds - the Rust code panics. -/
theorem claim_C9_counterexample :
    evaluate_garbled_circuit ⟨zero32, 0, []⟩ []
      (List.replicate 32769 (List.replicate 16 0))
      (List.replicate 32769 (List.replicate 16 0)) [] 0 =
      Except.error EvalErr.oob :=
  evaluate_oob_of_big_alice ⟨zero32, 0, []⟩ []
    (List.replicate 32769 (List.replicate 16 0))
    (List.replicate 32769 (List.replicate 16 0)) [] 0 32769
    (List.length_replicate _ _) rfl rfl
    (by simp only [maxWireFold, List.foldl_nil]; norm_num)

/-- Witness for C9 on empty inputs. -/
theorem claim_C9_witness :
    ([] : List (List Nat)).length ≤ 32768 ∧
    (evaluate_garbled_circuit ⟨zero32, 0, []⟩ [] [] [] [] 0 ≠
      Except.error EvalErr.oob ∧
    ∀ leaf la lb : List Nat,
      2 * (la.getD 0 0 &&& 1) + (lb.getD 0 0 &&& 1) ≤ 3 ∧
      ∃ ct, row_ct_from_leaf leaf
        (2 * (la.getD 0 0 &&& 1) + (lb.getD 0 0 &&& 1)) = .ok ct) :=
  ⟨by decide, claim_C9 ⟨zero32, 0, []⟩ [] [] [] [] 0 (by decide)⟩

/-! ## Closed forms for the comparator layout (C8, C1) -/

/-- Builder state after processing the `i` most significant bit positions
of the comparator loop. -/
def millState (w : Nat) : Nat → BuildSt × (Option Nat × Option Nat)
  | 0 => (⟨[], (w * 2) % 65536⟩, (none, none))
  | i + 1 =>
      let s := millState w i
      millStep w s.1 s.2 (w - (i + 1))

/-- Splitting one iteration off the remaining-bits loop. -/
theorem range_reverse_succ (j : Nat) :
    (List.range (j + 1)).reverse = j :: (List.range j).reverse := by
  rw [List.range_succ]
  simp

/-- The comparator loop is `millState` run to completion. -/
theorem millLoop_millState (w : Nat) : ∀ i, i ≤ w →
    millLoop w ((List.range w).reverse) (⟨[], (w * 2) % 65536⟩, (none, none)) =
      millLoop w ((List.range (w - i)).reverse) (millState w i) := by
  intro i
  induction i with
  | zero => intro _; rfl
  | succ i ih =>
    intro h
    rw [ih (by omega)]
    have hsplit : w - i = (w - (i + 1)) + 1 := by omega
    rw [hsplit, range_reverse_succ]
    rfl

/-- `build_millionaires_layout` in terms of `millState`. -/
theorem build_eq_millState (w : Nat) :
    build_millionaires_layout w = (millState w w).1.gates := by
  unfold build_millionaires_layout
  rw [millLoop_millState w w (Nat.le_refl _)]
  simp only [Nat.sub_self, List.range_zero, List.reverse_nil]
  rfl

/-- Explicit form of one non-first comparator iteration with no wire-id
saturation. -/
theorem millStep_some (w : Nat) (st : BuildSt) (gp ep bit : Nat)
    (h8 : st.next_wire + 8 ≤ 65535) :
    millStep w st (some gp, some ep) bit =
      (⟨st.gates ++
        [⟨.Xor, bit % 65536, (bit + w) % 65536, st.next_wire⟩,
         ⟨.Not, st.next_wire, 0, st.next_wire + 1⟩,
         ⟨.Not, (bit + w) % 65536, 0, st.next_wire + 2⟩,
         ⟨.And, bit % 65536, st.next_wire + 2, st.next_wire + 3⟩,
         ⟨.And, ep, st.next_wire + 3, st.next_wire + 4⟩,
         ⟨.Xor, gp, st.next_wire + 4, st.next_wire + 5⟩,
         ⟨.And, gp, st.next_wire + 4, st.next_wire + 6⟩,
         ⟨.Xor, st.next_wire + 5, st.next_wire + 6, st.next_wire + 7⟩,
         ⟨.And, ep, st.next_wire + 1, st.next_wire + 8⟩],
        min (st.next_wire + 9) 65535⟩,
       (some (st.next_wire + 7), some (st.next_wire + 8))) := by
  have m1 : min (st.next_wire + 1) 65535 = st.next_wire + 1 := Nat.min_eq_left (by omega)
  have m2 : min (st.next_wire + 1 + 1) 65535 = st.next_wire + 2 := by
    rw [show st.next_wire + 1 + 1 = st.next_wire + 2 from rfl]
    exact Nat.min_eq_left (by omega)
  have m3 : min (st.next_wire + 2 + 1) 65535 = st.next_wire + 3 := by
    rw [show st.next_wire + 2 + 1 = st.next_wire + 3 from rfl]
    exact Nat.min_eq_left (by omega)
  have m4 : min (st.next_wire + 3 + 1) 65535 = st.next_wire + 4 := by
    rw [show st.next_wire + 3 + 1 = st.next_wire + 4 from rfl]
    exact Nat.min_eq_left (by omega)
  have m5 : min (st.next_wire + 4 + 1) 65535 = st.next_wire + 5 := by
    rw [show st.next_wire + 4 + 1 = st.next_wire + 5 from rfl]
    exact Nat.min_eq_left (by omega)
  have m6 : min (st.next_wire + 5 + 1) 65535 = st.next_wire + 6 := by
    rw [show st.next_wire + 5 + 1 = st.next_wire + 6 from rfl]
    exact Nat.min_eq_left (by omega)
  have m7 : min (st.next_wire + 6 + 1) 65535 = st.next_wire + 7 := by
    rw [show st.next_wire + 6 + 1 = st.next_wire + 7 from rfl]
    exact Nat.min_eq_left (by omega)
  have m8 : min (st.next_wire + 7 + 1) 65535 = st.next_wire + 8 := by
    rw [show st.next_wire + 7 + 1 = st.next_wire + 8 from rfl]
    exact Nat.min_eq_left (by omega)
  have m9 : min (st.next_wire + 8 + 1) 65535 = min (st.next_wire + 9) 65535 := by
    rw [show st.next_wire + 8 + 1 = st.next_wire + 9 from rfl]
  simp only [millStep, push_xor, push_and, push_not, push_or, push_gate,
    m1, m2, m3, m4, m5, m6, m7, m8, m9, List.append_assoc, List.cons_append,
    List.nil_append]

/-- Explicit form of the first comparator iteration (the accumulators are
initialised, no saturation). -/
theorem millStep_first (w : Nat) (st : BuildSt) (bit : Nat)
    (h4 : st.next_wire + 3 ≤ 65535) :
    millStep w st (none, none) bit =
      (⟨st.gates ++
        [⟨.Xor, bit % 65536, (bit + w) % 65536, st.next_wire⟩,
         ⟨.Not, st.next_wire, 0, st.next_wire + 1⟩,
         ⟨.Not, (bit + w) % 65536, 0, st.next_wire + 2⟩,
         ⟨.And, bit % 65536, st.next_wire + 2, st.next_wire + 3⟩],
        min (st.next_wire + 4) 65535⟩,
       (some (st.next_wire + 3), some (st.next_wire + 1))) := by
  have m1 : min (st.next_wire + 1) 65535 = st.next_wire + 1 := Nat.min_eq_left (by omega)
  have m2 : min (st.next_wire + 1 + 1) 65535 = st.next_wire + 2 := by
    rw [show st.next_wire + 1 + 1 = st.next_wire + 2 from rfl]
    exact Nat.min_eq_left (by omega)
  have m3 : min (st.next_wire + 2 + 1) 65535 = st.next_wire + 3 := by
    rw [show st.next_wire + 2 + 1 = st.next_wire + 3 from rfl]
    exact Nat.min_eq_left (by omega)
  have m4 : min (st.next_wire + 3 + 1) 65535 = min (st.next_wire + 4) 65535 := by
    rw [show st.next_wire + 3 + 1 = st.next_wire + 4 from rfl]
  simp only [millStep, push_xor, push_and, push_not, push_gate,
    m1, m2, m3, m4, List.append_assoc, List.cons_append, List.nil_append]

/-- Explicit form of a non-first comparator iteration at a saturated wire
counter: all nine output wires collapse to 65535. -/
theorem millStep_sat (w : Nat) (st : BuildSt) (gp ep bit : Nat)
    (hn : st.next_wire = 65535) :
    millStep w st (some gp, some ep) bit =
      (⟨st.gates ++
        [⟨.Xor, bit % 65536, (bit + w) % 65536, 65535⟩,
         ⟨.Not, 65535, 0, 65535⟩,
         ⟨.Not, (bit + w) % 65536, 0, 65535⟩,
         ⟨.And, bit % 65536, 65535, 65535⟩,
         ⟨.And, ep, 65535, 65535⟩,
         ⟨.Xor, gp, 65535, 65535⟩,
         ⟨.And, gp, 65535, 65535⟩,
         ⟨.Xor, 65535, 65535, 65535⟩,
         ⟨.And, ep, 65535, 65535⟩],
        65535⟩,
       (some 65535, some 65535)) := by
  have m1 : min (65535 + 1) 65535 = 65535 := Nat.min_eq_right (by omega)
  simp only [millStep, push_xor, push_and, push_not, push_or, push_gate, hn,
    m1, List.append_assoc, List.cons_append, List.nil_append]

/-- Default gate used for out-of-range reads. -/
def dummyGate : GateDesc := ⟨.And, 0, 0, 0⟩

/-- Structural invariant of the comparator builder after `i` of the `w`
iterations, in the saturation-free regime. -/
def MillInv (w i : Nat) : Prop :=
  (millState w i).1.gates.length = 9 * i - 5 ∧
  (millState w i).1.next_wire = 2 * w + (9 * i - 5) ∧
  (millState w i).2 = (some (if i = 1 then 2 * w + 3 else 2 * w + (9 * i - 7)),
    some (if i = 1 then 2 * w + 1 else 2 * w + (9 * i - 6))) ∧
  (∀ k, k < 9 * i - 5 →
    ((millState w i).1.gates.getD k dummyGate).wire_c = 2 * w + k) ∧
  (∀ k, k < 9 * i - 5 →
    ((millState w i).1.gates.getD k dummyGate).wire_a < 2 * w + k ∧
    ((millState w i).1.gates.getD k dummyGate).wire_b < 2 * w + k)

/-- The builder invariant holds through every saturation-free iteration. -/
theorem millInv (w : Nat) (hw1 : 1 ≤ w) (hw : w ≤ 16383) :
    ∀ i, 1 ≤ i → i ≤ w → 2 * w + (9 * i - 5) ≤ 65535 → MillInv w i := by
  intro i
  induction i with
  | zero => intro h1 _ _; omega
  | succ i ih =>
    intro h1 h2 hsat
    by_cases hi0 : i = 0
    · -- first iteration
      subst hi0
      have hmod : (w * 2) % 65536 = w * 2 := Nat.mod_eq_of_lt (by omega)
      have hstep := millStep_first w ⟨[], (w * 2) % 65536⟩ (w - 1)
        (by simp only [hmod]; omega)
      have hstate : millState w 1 = millStep w ⟨[], (w * 2) % 65536⟩ (none, none)
          (w - 1) := rfl
      unfold MillInv
      rw [hstate, hstep]
      simp only [hmod]
      have hbit : (w - 1) % 65536 = w - 1 := Nat.mod_eq_of_lt (by omega)
      have hbitb : (w - 1 + w) % 65536 = w - 1 + w := Nat.mod_eq_of_lt (by omega)
      refine ⟨by simp, ?_, ?_, ?_, ?_⟩
      · dsimp only
        rw [Nat.min_eq_left (by omega)]
        omega
      · dsimp only
        simp only [reduceIte, Prod.mk.injEq, Option.some.injEq]
        omega
      · intro k hk
        have hk3 : k ≤ 3 := by omega
        interval_cases k <;> simp [List.getD] <;> omega
      · intro k hk
        have hk3 : k ≤ 3 := by omega
        have hb1 : w - 1 < 2 * w := by omega
        have hb2 : w - 1 + w < 2 * w := by omega
        interval_cases k <;> simp [List.getD, hbit, hbitb] <;> omega
    · -- subsequent iteration
      have hIH := ih (by omega) (by omega) (by omega)
      obtain ⟨hlen, hnext, hacc, hwc, hwab⟩ := hIH
      set st := (millState w i).1 with hst
      set gp := (if i = 1 then 2 * w + 3 else 2 * w + (9 * i - 7)) with hgp
      set ep := (if i = 1 then 2 * w + 1 else 2 * w + (9 * i - 6)) with hep
      have hgple : gp ≤ 2 * w + (9 * i - 6) := by
        rw [hgp]; by_cases h : i = 1 <;> simp [h] <;> omega
      have heple : ep ≤ 2 * w + (9 * i - 6) := by
        rw [hep]; by_cases h : i = 1 <;> simp [h] <;> omega
      have hstate : millState w (i + 1) = millStep w st (some gp, some ep)
          (w - (i + 1)) := by
        show millStep w (millState w i).1 (millState w i).2 (w - (i + 1)) = _
        rw [hacc]
      have hstep := millStep_some w st gp ep (w - (i + 1))
        (by rw [hnext]; omega)
      unfold MillInv
      rw [hstate, hstep]
      have hbit : (w - (i + 1)) % 65536 = w - (i + 1) := Nat.mod_eq_of_lt (by omega)
      have hbitb : (w - (i + 1) + w) % 65536 = w - (i + 1) + w :=
        Nat.mod_eq_of_lt (by omega)
      refine ⟨?_, ?_, ?_, ?_, ?_⟩
      · simp only [List.length_append, hlen]
        simp only [List.length_cons, List.length_nil]
        omega
      · dsimp only
        rw [Nat.min_eq_left (by rw [hnext]; omega), hnext]
        omega
      · dsimp only
        rw [if_neg (by omega : ¬ i + 1 = 1), if_neg (by omega : ¬ i + 1 = 1)]
        simp only [Prod.mk.injEq, Option.some.injEq]
        omega
      · intro k hk
        dsimp only
        by_cases hk9 : k < 9 * i - 5
        · rw [List.getD_append _ _ _ _ (by rw [hlen]; exact hk9)]
          rw [hwc k hk9]
        · obtain ⟨j, rfl⟩ : ∃ j, k = (9 * i - 5) + j := ⟨k - (9 * i - 5), by omega⟩
          rw [List.getD_append_right _ _ _ _ (by rw [hlen]; omega), hlen,
            Nat.add_sub_cancel_left]
          have hj : j ≤ 8 := by omega
          interval_cases j <;> simp [List.getD] <;> omega
      · intro k hk
        dsimp only
        by_cases hk9 : k < 9 * i - 5
        · rw [List.getD_append _ _ _ _ (by rw [hlen]; exact hk9)]
          exact hwab k hk9
        · obtain ⟨j, rfl⟩ : ∃ j, k = (9 * i - 5) + j := ⟨k - (9 * i - 5), by omega⟩
          rw [List.getD_append_right _ _ _ _ (by rw [hlen]; omega), hlen,
            Nat.add_sub_cancel_left]
          have hj : j ≤ 8 := by omega
          have hb1 : w - (i + 1) < 2 * w := by omega
          have hb2 : w - (i + 1) + w < 2 * w := by omega
          have hgplt : gp < st.next_wire := by rw [hnext]; omega
          have heplt : ep < st.next_wire := by rw [hnext]; omega
          interval_cases j <;> simp [List.getD, hbit, hbitb] <;> omega

/-! ## Claim C8 -/

/-- C8 (amended to the saturation-free widths): for `1 ≤ bit_width ≤ 5958`
the comparator layout's output wire ids are exactly `2*bit_width + k` for
gate `k` (strictly increasing by one per gate from `2*bit_width`), and every
gate input is an input wire or the output of an earlier gate. -/
theorem claim_C8 (w : Nat) (hw1 : 1 ≤ w) (hw : w ≤ 5958) :
    ∀ k, k < (build_millionaires_layout w).length →
      ((build_millionaires_layout w).getD k dummyGate).wire_c = 2 * w + k ∧
      (((build_millionaires_layout w).getD k dummyGate).wire_a < 2 * w ∨
        ∃ j, j < k ∧ ((build_millionaires_layout w).getD k dummyGate).wire_a =
          ((build_millionaires_layout w).getD j dummyGate).wire_c) ∧
      (((build_millionaires_layout w).getD k dummyGate).wire_b < 2 * w ∨
        ∃ j, j < k ∧ ((build_millionaires_layout w).getD k dummyGate).wire_b =
          ((build_millionaires_layout w).getD j dummyGate).wire_c) := by
  have hinv := millInv w hw1 (by omega) w hw1 (Nat.le_refl _) (by omega)
  obtain ⟨hlen, hnext, hacc, hwc, hwab⟩ := hinv
  rw [build_eq_millState]
  intro k hk
  rw [hlen] at hk
  have hab := hwab k hk
  refine ⟨hwc k hk, ?_, ?_⟩
  · by_cases hlt : ((millState w w).1.gates.getD k dummyGate).wire_a < 2 * w
    · exact Or.inl hlt
    · refine Or.inr ⟨((millState w w).1.gates.getD k dummyGate).wire_a - 2 * w,
        by omega, ?_⟩
      rw [hwc _ (by omega)]
      omega
  · by_cases hlt : ((millState w w).1.gates.getD k dummyGate).wire_b < 2 * w
    · exact Or.inl hlt
    · refine Or.inr ⟨((millState w w).1.gates.getD k dummyGate).wire_b - 2 * w,
        by omega, ?_⟩
      rw [hwc _ (by omega)]
      omega

/-- Witness for C8 at width 4. -/
theorem claim_C8_witness :
    (1 : Nat) ≤ 4 ∧ (4 : Nat) ≤ 5958 ∧
    (0 < (build_millionaires_layout 4).length →
      ((build_millionaires_layout 4).getD 0 dummyGate).wire_c = 2 * 4 + 0 ∧
      (((build_millionaires_layout 4).getD 0 dummyGate).wire_a < 2 * 4 ∨
        ∃ j, j < 0 ∧ ((build_millionaires_layout 4).getD 0 dummyGate).wire_a =
          ((build_millionaires_layout 4).getD j dummyGate).wire_c) ∧
      (((build_millionaires_layout 4).getD 0 dummyGate).wire_b < 2 * 4 ∨
        ∃ j, j < 0 ∧ ((build_millionaires_layout 4).getD 0 dummyGate).wire_b =
          ((build_millionaires_layout 4).getD j dummyGate).wire_c)) :=
  ⟨by decide, by decide, claim_C8 4 (by decide) (by decide) 0⟩

/-- The builder state one iteration before the end at width 5959: the wire
counter has reached exactly 65535. -/
theorem millState_5959_5958 :
    (millState 5959 5958).1.gates.length = 53617 ∧
    (millState 5959 5958).1.next_wire = 65535 ∧
    (millState 5959 5958).2 = (some 65533, some 65534) := by
  have hinv := millInv 5959 (by norm_num) (by norm_num) 5958 (by norm_num)
    (by norm_num) (by norm_num)
  obtain ⟨hlen, hnext, hacc, _, _⟩ := hinv
  refine ⟨by rw [hlen], by rw [hnext], ?_⟩
  rw [hacc]
  norm_num

/-- The final comparator iteration at width 5959 saturates: the last two
gates both claim output wire 65535. -/
theorem build_5959_sat :
    (build_millionaires_layout 5959).length = 53626 ∧
    ((build_millionaires_layout 5959).getD 53624 dummyGate).wire_c = 65535 ∧
    ((build_millionaires_layout 5959).getD 53625 dummyGate).wire_c = 65535 := by
  obtain ⟨hlen, hnext, hacc⟩ := millState_5959_5958
  have hstate : millState 5959 5959 = millStep 5959 (millState 5959 5958).1
      (millState 5959 5958).2 (5959 - (5958 + 1)) := rfl
  rw [build_eq_millState, hstate, hacc, millStep_sat 5959 _ 65533 65534 _ hnext]
  refine ⟨?_, ?_, ?_⟩
  · simp only [List.length_append, hlen]
    norm_num
  · rw [List.getD_append_right _ _ _ _ (by rw [hlen]; omega), hlen]
    norm_num
  · rw [List.getD_append_right _ _ _ _ (by rw [hlen]; omega), hlen]
    norm_num

/-- C8 counterexample: at the accepted width 5959 (within `1..16383`) the
output wire ids are not `2*bit_width + k`: gate 53625 reports wire 65535
instead of 65543 because `saturating_add` clamps the wire counter. -/
theorem claim_C8_counterexample :
    ¬ (∀ k, k < (build_millionaires_layout 5959).length →
      ((build_millionaires_layout 5959).getD k dummyGate).wire_c = 2 * 5959 + k) := by
  intro hall
  obtain ⟨hlen, _, hc⟩ := build_5959_sat
  have := hall 53625 (by rw [hlen]; norm_num)
  rw [hc] at this
  omega

/-! ## Plain bit-level circuit semantics

Reference semantics used to state end-to-end correctness: wires carry plain
bits instead of labels, gates compute their truth tables directly. -/

/-- Plain meaning of one gate: read the input bits, require the output slot
to exist, and write the gate's truth value (`1 - a` for `NOT`). -/
def plainStep (ps : List (Option Nat)) (g : GateDesc) : Option (List (Option Nat)) :=
  match ps.getD g.wire_a none, g.gate_type with
  | none, _ => none
  | some a, GateType.Not =>
      if g.wire_c < ps.length then some (ps.set g.wire_c (some (1 - a))) else none
  | some a, GateType.And =>
      match ps.getD g.wire_b none with
      | none => none
      | some b =>
          if g.wire_c < ps.length then
            some (ps.set g.wire_c (some (truth_table GateType.And a b)))
          else none
  | some a, GateType.Xor =>
      match ps.getD g.wire_b none with
      | none => none
      | some b =>
          if g.wire_c < ps.length then
            some (ps.set g.wire_c (some (truth_table GateType.Xor a b)))
          else none

/-- Plain evaluation of a gate list. -/
def plainRun : List GateDesc → List (Option Nat) → Option (List (Option Nat))
  | [], ps => some ps
  | g :: rest, ps =>
      match plainStep ps g with
      | none => none
      | some ps2 => plainRun rest ps2

/-- One unfolding of `plainRun`. -/
theorem plainRun_cons (g : GateDesc) (rest : List GateDesc) (ps : List (Option Nat)) :
    plainRun (g :: rest) ps =
      match plainStep ps g with
      | none => none
      | some ps2 => plainRun rest ps2 := rfl

/-- `plainRun` splits over list append. -/
theorem plainRun_append (g1 g2 : List GateDesc) (ps : List (Option Nat)) :
    plainRun (g1 ++ g2) ps =
      match plainRun g1 ps with
      | none => none
      | some ps2 => plainRun g2 ps2 := by
  induction g1 generalizing ps with
  | nil => rfl
  | cons g rest ih =>
    simp only [List.cons_append, plainRun]
    cases plainStep ps g with
    | none => rfl
    | some ps2 => exact ih ps2

/-- `plainStep` preserves the state length. -/
theorem plainStep_length (ps ps2 : List (Option Nat)) (g : GateDesc)
    (h : plainStep ps g = some ps2) : ps2.length = ps.length := by
  unfold plainStep at h
  split at h
  · cases h
  · split at h
    · cases h
      simp
    · cases h
  · split at h
    · cases h
    · split at h
      · cases h
        simp
      · cases h
  · split at h
    · cases h
    · split at h
      · cases h
        simp
      · cases h

/-- `plainRun` preserves the state length. -/
theorem plainRun_length : ∀ (gates : List GateDesc) (ps ps2 : List (Option Nat)),
    plainRun gates ps = some ps2 → ps2.length = ps.length := by
  intro gates
  induction gates with
  | nil =>
    intro ps ps2 h
    cases h
    rfl
  | cons g rest ih =>
    intro ps ps2 h
    rw [plainRun_cons] at h
    cases hstep : plainStep ps g with
    | none => rw [hstep] at h; cases h
    | some ps1 =>
      rw [hstep] at h
      rw [ih ps1 ps2 h, plainStep_length ps ps1 g hstep]

/-- A populated `getD` read implies the index is in bounds. -/
theorem getD_some_lt {α : Type} (l : List (Option α)) (v : Nat) (a : α)
    (h : l.getD v none = some a) : v < l.length := by
  by_contra hc
  rw [List.getD_eq_default _ _ (by omega)] at h
  cases h

/-- Initial plain wire state: Alice's bits of `x` on wires `0..w-1`, Bob's
bits of `y` on wires `w..2w-1`, everything else empty. -/
def plainInit (len w x y : Nat) : List (Option Nat) :=
  (List.range len).map fun v =>
    if v < w then some ((x >>> v) &&& 1)
    else if v < 2 * w then some ((y >>> (v - w)) &&& 1)
    else none

/-- Length of the initial plain state. -/
theorem plainInit_length (len w x y : Nat) : (plainInit len w x y).length = len := by
  simp [plainInit]

/-- `getD` of a mapped range. -/
theorem map_range_getD {α : Type} (n j : Nat) (f : Nat → α) (d : α) (hj : j < n) :
    ((List.range n).map f).getD j d = f j := by
  rw [List.getD_eq_getElem?_getD, List.getElem?_map, List.getElem?_range hj]
  rfl

/-- Pointwise contents of the initial plain state. -/
theorem plainInit_getD (len w x y v : Nat) (hv : v < len) :
    (plainInit len w x y).getD v none =
      if v < w then some ((x >>> v) &&& 1)
      else if v < 2 * w then some ((y >>> (v - w)) &&& 1)
      else none := by
  unfold plainInit
  rw [map_range_getD _ _ _ _ hv]

/-- Pointwise contents of the wire-label map after one population loop. -/
theorem populateFrom_getD :
    ∀ (labels : List (List Nat)) (wl : List (Option (List Nat))) (start : Nat),
      start + labels.length ≤ wl.length →
      ∃ wl2, populateFrom wl start labels = .ok wl2 ∧
        wl2.length = wl.length ∧
        ∀ v, wl2.getD v none =
          if start ≤ v ∧ v < start + labels.length then
            some (labels.getD (v - start) [])
          else wl.getD v none := by
  intro labels
  induction labels with
  | nil =>
    intro wl start h
    refine ⟨wl, rfl, rfl, ?_⟩
    intro v
    rw [if_neg (by simp only [List.length_nil]; omega)]
  | cons l rest ih =>
    intro wl start h
    have hlt : start < wl.length := by simp at h; omega
    have hset : setSlot wl start l = .ok (wl.set start (some l)) := by
      unfold setSlot
      rw [if_pos hlt]
    obtain ⟨wl2, hrun, hlen, hget⟩ := ih (wl.set start (some l)) (start + 1)
      (by simp at h ⊢; omega)
    refine ⟨wl2, ?_, by rw [hlen]; simp, ?_⟩
    · unfold populateFrom
      rw [hset, ok_bind]
      exact hrun
    · intro v
      rw [hget v]
      by_cases h1 : start + 1 ≤ v ∧ v < start + 1 + rest.length
      · rw [if_pos h1, if_pos (by simp only [List.length_cons]; omega)]
        obtain ⟨j, rfl⟩ : ∃ j, v = start + (j + 1) := ⟨v - start - 1, by omega⟩
        rw [Nat.add_sub_cancel_left, List.getD_cons_succ]
        congr 2
        omega
      · rw [if_neg h1]
        by_cases h2 : v = start
        · subst h2
          rw [if_pos (by simp only [List.length_cons]; omega),
            getD_set_self _ _ _ _ hlt, Nat.sub_self, List.getD_cons_zero]
        · rw [if_neg (by simp only [List.length_cons]; omega),
            getD_set_ne _ _ _ _ _ (Ne.symm h2)]

/-- The garbled leaves list, indexed: leaf `j` of the suffix starting at
`idx` is the canonical leaf for gate index `idx + j`. -/
theorem garbleAux_getD (seed cid : List Nat) (iid : Nat) :
    ∀ (gates : List GateDesc) (idx j : Nat), j < gates.length →
      (garbleAux seed cid iid idx gates).getD j [] =
        recompute_gate_leaf seed cid iid (idx + j) (gates.getD j dummyGate) := by
  intro gates
  induction gates with
  | nil =>
    intro idx j h
    simp at h
  | cons g rest ih =>
    intro idx j h
    cases j with
    | zero =>
      rw [Nat.add_zero]
      rfl
    | succ j =>
      show (garbleAux seed cid iid (idx + 1) rest).getD j [] = _
      rw [ih (idx + 1) j (by simp only [List.length_cons] at h; omega),
        List.getD_cons_succ, show idx + 1 + j = idx + (j + 1) from by omega]

/-- Every hint produced by the NOT-hint derivation has gate index at least
the enumeration offset. -/
theorem deriveNotHintsAux_ge (cid : List Nat) (iid : Nat) (seed : List Nat) :
    ∀ (gates : List GateDesc) (idx : Nat) (h : NotGateHint),
      h ∈ deriveNotHintsAux cid iid seed gates idx → idx ≤ h.gate_index := by
  intro gates
  induction gates with
  | nil =>
    intro idx h hmem
    simp [deriveNotHintsAux] at hmem
  | cons g rest ih =>
    intro idx h hmem
    unfold deriveNotHintsAux at hmem
    by_cases hg : g.gate_type = GateType.Not
    · rw [if_pos hg] at hmem
      rcases List.mem_cons.mp hmem with h0 | h0
      · subst h0
        exact Nat.le_refl _
      · have := ih (idx + 1) h h0
        omega
    · rw [if_neg hg] at hmem
      have := ih (idx + 1) h hmem
      omega

/-- Looking up the NOT hint of gate `idx + j` in the derived hint list
returns exactly the canonical hint for that gate. -/
theorem notHints_find (cid : List Nat) (iid : Nat) (seed : List Nat) :
    ∀ (gates : List GateDesc) (idx j : Nat), j < gates.length →
      (gates.getD j dummyGate).gate_type = GateType.Not →
      (deriveNotHintsAux cid iid seed gates idx).find?
          (fun h => h.gate_index == idx + j) =
        some { gate_index := idx + j
               in_label0 :=
                 derive_wire_label cid iid (gates.getD j dummyGate).wire_a 0 seed
               out_if_in0 :=
                 derive_wire_label cid iid (gates.getD j dummyGate).wire_c 1 seed
               in_label1 :=
                 derive_wire_label cid iid (gates.getD j dummyGate).wire_a 1 seed
               out_if_in1 :=
                 derive_wire_label cid iid (gates.getD j dummyGate).wire_c 0 seed } := by
  intro gates
  induction gates with
  | nil =>
    intro idx j h
    simp at h
  | cons g rest ih =>
    intro idx j hj hg
    cases j with
    | zero =>
      rw [List.getD_cons_zero] at hg ⊢
      unfold deriveNotHintsAux
      rw [if_pos hg]
      rw [List.find?_cons_of_pos _ (by simp)]
      rw [Nat.add_zero]
    | succ j =>
      rw [List.getD_cons_succ] at hg ⊢
      have hrec := ih (idx + 1) j (by simp only [List.length_cons] at hj; omega) hg
      have harith : idx + 1 + j = idx + (j + 1) := by omega
      rw [harith] at hrec
      unfold deriveNotHintsAux
      by_cases hgt : g.gate_type = GateType.Not
      · rw [if_pos hgt]
        rw [List.find?_cons_of_neg _ (by intro hc; simp only [beq_iff_eq] at hc; omega)]
        exact hrec
      · rw [if_neg hgt]
        exact hrec

/-- Correspondence invariant between the evaluator's wire-label map and a
plain bit state: lengths agree, and a populated slot holds exactly the
derived label for that wire's plain bit. -/
def Rel (cid : List Nat) (iid : Nat) (seed : List Nat)
    (wl : List (Option (List Nat))) (ps : List (Option Nat)) : Prop :=
  wl.length = ps.length ∧
  ∀ v, (ps.getD v none = none → wl.getD v none = none) ∧
    ∀ b, ps.getD v none = some b →
      b ≤ 1 ∧ wl.getD v none = some (derive_wire_label cid iid v b seed)

/-- Writing a bit and its derived label at the same wire preserves the
correspondence. -/
theorem Rel_set (cid : List Nat) (iid : Nat) (seed : List Nat)
    (wl : List (Option (List Nat))) (ps : List (Option Nat)) (c b : Nat)
    (hrel : Rel cid iid seed wl ps) (hb : b ≤ 1) (hc : c < ps.length) :
    Rel cid iid seed (wl.set c (some (derive_wire_label cid iid c b seed)))
      (ps.set c (some b)) := by
  obtain ⟨hlen, hp⟩ := hrel
  refine ⟨by simp [hlen], ?_⟩
  intro v
  by_cases hv : c = v
  · subst hv
    constructor
    · intro h
      rw [getD_set_self _ _ _ _ hc] at h
      cases h
    · intro b2 h
      rw [getD_set_self _ _ _ _ hc] at h
      have hb2 : b2 = b := (Option.some.inj h).symm
      subst hb2
      rw [getD_set_self _ _ _ _ (by omega)]
      exact ⟨hb, rfl⟩
  · constructor
    · intro h
      rw [getD_set_ne _ _ _ _ _ hv] at h
      rw [getD_set_ne _ _ _ _ _ hv]
      exact (hp v).1 h
    · intro b2 h
      rw [getD_set_ne _ _ _ _ _ hv] at h
      rw [getD_set_ne _ _ _ _ _ hv]
      exact (hp v).2 b2 h

/-- The evaluator's gate loop tracks the plain run: from corresponding
states, with canonical leaves and NOT hints for the remaining gates, it
succeeds and the resulting states correspond again. -/
theorem evalGates_correct (cid seed : List Nat) (iid : Nat)
    (leaves : List (List Nat)) (hints : List NotGateHint) :
    ∀ (gates : List GateDesc) (idx : Nat) (wl : List (Option (List Nat)))
      (ps ps2 : List (Option Nat)),
      Rel cid iid seed wl ps →
      (∀ j, j < gates.length →
        leaves.getD (idx + j) [] =
          recompute_gate_leaf seed cid iid (idx + j) (gates.getD j dummyGate)) →
      (∀ j, j < gates.length → (gates.getD j dummyGate).gate_type = GateType.Not →
        hints.find? (fun h => h.gate_index == idx + j) =
          some { gate_index := idx + j
                 in_label0 :=
                   derive_wire_label cid iid (gates.getD j dummyGate).wire_a 0 seed
                 out_if_in0 :=
                   derive_wire_label cid iid (gates.getD j dummyGate).wire_c 1 seed
                 in_label1 :=
                   derive_wire_label cid iid (gates.getD j dummyGate).wire_a 1 seed
                 out_if_in1 :=
                   derive_wire_label cid iid (gates.getD j dummyGate).wire_c 0 seed }) →
      plainRun gates ps = some ps2 →
      ∃ wl2, evalGates cid iid leaves hints gates idx wl = .ok wl2 ∧
        Rel cid iid seed wl2 ps2 := by
  intro gates
  induction gates with
  | nil =>
    intro idx wl ps ps2 hrel _ _ hrun
    cases hrun
    exact ⟨wl, rfl, hrel⟩
  | cons g rest ih =>
    intro idx wl ps ps2 hrel hleaves hhints hrun
    rw [plainRun_cons] at hrun
    cases hstep : plainStep ps g with
    | none => rw [hstep] at hrun; cases hrun
    | some ps1 =>
    rw [hstep] at hrun
    have hleaves1 : ∀ j, j < rest.length →
        leaves.getD (idx + 1 + j) [] =
          recompute_gate_leaf seed cid iid (idx + 1 + j) (rest.getD j dummyGate) := by
      intro j hj
      have h := hleaves (j + 1) (by simp only [List.length_cons]; omega)
      rw [List.getD_cons_succ] at h
      rw [show idx + 1 + j = idx + (j + 1) from by omega]
      exact h
    have hhints1 : ∀ j, j < rest.length →
        (rest.getD j dummyGate).gate_type = GateType.Not →
        hints.find? (fun h => h.gate_index == idx + 1 + j) =
          some { gate_index := idx + 1 + j
                 in_label0 :=
                   derive_wire_label cid iid (rest.getD j dummyGate).wire_a 0 seed
                 out_if_in0 :=
                   derive_wire_label cid iid (rest.getD j dummyGate).wire_c 1 seed
                 in_label1 :=
                   derive_wire_label cid iid (rest.getD j dummyGate).wire_a 1 seed
                 out_if_in1 :=
                   derive_wire_label cid iid (rest.getD j dummyGate).wire_c 0 seed } := by
      intro j hj hg
      have h := hhints (j + 1) (by simp only [List.length_cons]; omega)
        (by rw [List.getD_cons_succ]; exact hg)
      rw [List.getD_cons_succ] at h
      rw [show idx + 1 + j = idx + (j + 1) from by omega]
      exact h
    obtain ⟨hlen, hp⟩ := hrel
    unfold plainStep at hstep
    split at hstep
    · cases hstep
    · -- NOT gate
      rename_i a hga hgt
      split at hstep
      · rename_i hc
        have hps1 : ps1 = ps.set g.wire_c (some (1 - a)) :=
          (Option.some.inj hstep).symm
        subst hps1
        obtain ⟨ha1, hwla⟩ := (hp g.wire_a).2 a hga
        have hwa_lt : g.wire_a < wl.length := by
          rw [hlen]; exact getD_some_lt _ _ _ hga
        have hwc_lt : g.wire_c < wl.length := by rw [hlen]; exact hc
        have hga2 : getSlot wl g.wire_a =
            .ok (some (derive_wire_label cid iid g.wire_a a seed)) := by
          unfold getSlot
          rw [if_pos hwa_lt, hwla]
        have hfind := hhints 0 (by simp only [List.length_cons]; omega)
          (by rw [List.getD_cons_zero]; exact hgt)
        rw [Nat.add_zero, List.getD_cons_zero] at hfind
        unfold evalGates
        rw [hga2]
        simp only [ok_bind]
        rw [hgt, hfind]
        simp only [ok_bind]
        rcases Nat.le_one_iff_eq_zero_or_eq_one.mp ha1 with ha0 | ha0 <;> subst ha0
        · rw [if_pos rfl]
          try simp only [ok_bind]
          have hset2 : setSlot wl g.wire_c
              (derive_wire_label cid iid g.wire_c 1 seed) =
              .ok (wl.set g.wire_c
                (some (derive_wire_label cid iid g.wire_c 1 seed))) := by
            unfold setSlot
            rw [if_pos hwc_lt]
          rw [hset2]
          simp only [ok_bind]
          rw [show (1 : Nat) - 0 = 1 from rfl] at hrun
          exact ih (idx + 1)
            (wl.set g.wire_c (some (derive_wire_label cid iid g.wire_c 1 seed)))
            (ps.set g.wire_c (some 1)) ps2
            (Rel_set cid iid seed wl ps g.wire_c 1 ⟨hlen, hp⟩ (by omega) hc)
            hleaves1 hhints1 hrun
        · rw [if_neg (label_ne cid seed iid g.wire_a 1 0 (by omega) (by omega)
            (by omega))]
          rw [if_pos rfl]
          try simp only [ok_bind]
          have hset2 : setSlot wl g.wire_c
              (derive_wire_label cid iid g.wire_c 0 seed) =
              .ok (wl.set g.wire_c
                (some (derive_wire_label cid iid g.wire_c 0 seed))) := by
            unfold setSlot
            rw [if_pos hwc_lt]
          rw [hset2]
          simp only [ok_bind]
          rw [show (1 : Nat) - 1 = 0 from rfl] at hrun
          exact ih (idx + 1)
            (wl.set g.wire_c (some (derive_wire_label cid iid g.wire_c 0 seed)))
            (ps.set g.wire_c (some 0)) ps2
            (Rel_set cid iid seed wl ps g.wire_c 0 ⟨hlen, hp⟩ (by omega) hc)
            hleaves1 hhints1 hrun
      · cases hstep
    · -- AND gate
      rename_i a hga hgt
      split at hstep
      · cases hstep
      · rename_i b hgb
        split at hstep
        · rename_i hc
          have hps1 : ps1 = ps.set g.wire_c (some (truth_table GateType.And a b)) :=
            (Option.some.inj hstep).symm
          subst hps1
          obtain ⟨ha1, hwla⟩ := (hp g.wire_a).2 a hga
          obtain ⟨hb1, hwlb⟩ := (hp g.wire_b).2 b hgb
          have hwa_lt : g.wire_a < wl.length := by
            rw [hlen]; exact getD_some_lt _ _ _ hga
          have hwb_lt : g.wire_b < wl.length := by
            rw [hlen]; exact getD_some_lt _ _ _ hgb
          have hwc_lt : g.wire_c < wl.length := by rw [hlen]; exact hc
          have hga2 : getSlot wl g.wire_a =
              .ok (some (derive_wire_label cid iid g.wire_a a seed)) := by
            unfold getSlot
            rw [if_pos hwa_lt, hwla]
          have hgb2 : getSlot wl g.wire_b =
              .ok (some (derive_wire_label cid iid g.wire_b b seed)) := by
            unfold getSlot
            rw [if_pos hwb_lt, hwlb]
          have hpa : (derive_wire_label cid iid g.wire_a a seed).getD 0 0 &&& 1 =
              a ^^^ derive_wire_flip_bit cid iid g.wire_a seed := by
            have h := label_perm_bit cid seed iid g.wire_a a ha1
            unfold get_permutation_bit at h
            rw [h, Nat.xor_comm]
          have hpb : (derive_wire_label cid iid g.wire_b b seed).getD 0 0 &&& 1 =
              b ^^^ derive_wire_flip_bit cid iid g.wire_b seed := by
            have h := label_perm_bit cid seed iid g.wire_b b hb1
            unfold get_permutation_bit at h
            rw [h, Nat.xor_comm]
          have hleaf0 : leaves.getD idx [] =
              recompute_gate_leaf seed cid iid idx g := by
            have h := hleaves 0 (by simp only [List.length_cons]; omega)
            rw [Nat.add_zero, List.getD_cons_zero] at h
            exact h
          have hrow : row_ct_from_leaf (leaves.getD idx [])
              (2 * ((derive_wire_label cid iid g.wire_a a seed).getD 0 0 &&& 1) +
                ((derive_wire_label cid iid g.wire_b b seed).getD 0 0 &&& 1)) =
              .ok (((leaves.getD idx []).drop (7 + 16 *
                (2 * ((derive_wire_label cid iid g.wire_a a seed).getD 0 0 &&& 1) +
                  ((derive_wire_label cid iid g.wire_b b seed).getD 0 0 &&&
                    1)))).take 16) := by
            unfold row_ct_from_leaf
            rw [if_neg (by
              have h1 := and_one_le ((derive_wire_label cid iid g.wire_a a
                seed).getD 0 0)
              have h2 := and_one_le ((derive_wire_label cid iid g.wire_b b
                seed).getD 0 0)
              omega)]
          have hdec := leaf_row_decode seed cid iid idx g a b
            ((derive_wire_label cid iid g.wire_a a seed).getD 0 0 &&& 1)
            ((derive_wire_label cid iid g.wire_b b seed).getD 0 0 &&& 1)
            (Or.inl hgt) ha1 hb1 hpa hpb
          rw [hgt] at hdec
          unfold evalGates
          rw [hga2]
          simp only [ok_bind]
          rw [hgt, hgb2]
          simp only [ok_bind]
          rw [hrow]
          simp only [ok_bind]
          rw [hleaf0, hdec]
          have hset2 : setSlot wl g.wire_c
              (derive_wire_label cid iid g.wire_c (truth_table GateType.And a b)
                seed) =
              .ok (wl.set g.wire_c
                (some (derive_wire_label cid iid g.wire_c
                  (truth_table GateType.And a b) seed))) := by
            unfold setSlot
            rw [if_pos hwc_lt]
          rw [hset2]
          simp only [ok_bind]
          exact ih (idx + 1)
            (wl.set g.wire_c (some (derive_wire_label cid iid g.wire_c
              (truth_table GateType.And a b) seed)))
            (ps.set g.wire_c (some (truth_table GateType.And a b))) ps2
            (Rel_set cid iid seed wl ps g.wire_c (truth_table GateType.And a b)
              ⟨hlen, hp⟩ (and_one_le _) hc)
            hleaves1 hhints1 hrun
        · cases hstep
    · -- XOR gate
      rename_i a hga hgt
      split at hstep
      · cases hstep
      · rename_i b hgb
        split at hstep
        · rename_i hc
          have hps1 : ps1 = ps.set g.wire_c (some (truth_table GateType.Xor a b)) :=
            (Option.some.inj hstep).symm
          subst hps1
          obtain ⟨ha1, hwla⟩ := (hp g.wire_a).2 a hga
          obtain ⟨hb1, hwlb⟩ := (hp g.wire_b).2 b hgb
          have hwa_lt : g.wire_a < wl.length := by
            rw [hlen]; exact getD_some_lt _ _ _ hga
          have hwb_lt : g.wire_b < wl.length := by
            rw [hlen]; exact getD_some_lt _ _ _ hgb
          have hwc_lt : g.wire_c < wl.length := by rw [hlen]; exact hc
          have hga2 : getSlot wl g.wire_a =
              .ok (some (derive_wire_label cid iid g.wire_a a seed)) := by
            unfold getSlot
            rw [if_pos hwa_lt, hwla]
          have hgb2 : getSlot wl g.wire_b =
              .ok (some (derive_wire_label cid iid g.wire_b b seed)) := by
            unfold getSlot
            rw [if_pos hwb_lt, hwlb]
          have hpa : (derive_wire_label cid iid g.wire_a a seed).getD 0 0 &&& 1 =
              a ^^^ derive_wire_flip_bit cid iid g.wire_a seed := by
            have h := label_perm_bit cid seed iid g.wire_a a ha1
            unfold get_permutation_bit at h
            rw [h, Nat.xor_comm]
          have hpb : (derive_wire_label cid iid g.wire_b b seed).getD 0 0 &&& 1 =
              b ^^^ derive_wire_flip_bit cid iid g.wire_b seed := by
            have h := label_perm_bit cid seed iid g.wire_b b hb1
            unfold get_permutation_bit at h
            rw [h, Nat.xor_comm]
          have hleaf0 : leaves.getD idx [] =
              recompute_gate_leaf seed cid iid idx g := by
            have h := hleaves 0 (by simp only [List.length_cons]; omega)
            rw [Nat.add_zero, List.getD_cons_zero] at h
            exact h
          have hrow : row_ct_from_leaf (leaves.getD idx [])
              (2 * ((derive_wire_label cid iid g.wire_a a seed).getD 0 0 &&& 1) +
                ((derive_wire_label cid iid g.wire_b b seed).getD 0 0 &&& 1)) =
              .ok (((leaves.getD idx []).drop (7 + 16 *
                (2 * ((derive_wire_label cid iid g.wire_a a seed).getD 0 0 &&& 1) +
                  ((derive_wire_label cid iid g.wire_b b seed).getD 0 0 &&&
                    1)))).take 16) := by
            unfold row_ct_from_leaf
            rw [if_neg (by
              have h1 := and_one_le ((derive_wire_label cid iid g.wire_a a
                seed).getD 0 0)
              have h2 := and_one_le ((derive_wire_label cid iid g.wire_b b
                seed).getD 0 0)
              omega)]
          have hdec := leaf_row_decode seed cid iid idx g a b
            ((derive_wire_label cid iid g.wire_a a seed).getD 0 0 &&& 1)
            ((derive_wire_label cid iid g.wire_b b seed).getD 0 0 &&& 1)
            (Or.inr hgt) ha1 hb1 hpa hpb
          rw [hgt] at hdec
          unfold evalGates
          rw [hga2]
          simp only [ok_bind]
          rw [hgt, hgb2]
          simp only [ok_bind]
          rw [hrow]
          simp only [ok_bind]
          rw [hleaf0, hdec]
          have hset2 : setSlot wl g.wire_c
              (derive_wire_label cid iid g.wire_c (truth_table GateType.Xor a b)
                seed) =
              .ok (wl.set g.wire_c
                (some (derive_wire_label cid iid g.wire_c
                  (truth_table GateType.Xor a b) seed))) := by
            unfold setSlot
            rw [if_pos hwc_lt]
          rw [hset2]
          simp only [ok_bind]
          exact ih (idx + 1)
            (wl.set g.wire_c (some (derive_wire_label cid iid g.wire_c
              (truth_table GateType.Xor a b) seed)))
            (ps.set g.wire_c (some (truth_table GateType.Xor a b))) ps2
            (Rel_set cid iid seed wl ps g.wire_c (truth_table GateType.Xor a b)
              ⟨hlen, hp⟩ (and_one_le _) hc)
            hleaves1 hhints1 hrun
        · cases hstep

/-! ## Comparator semantics over plain bits -/

/-- Top `i` bits of a width-`w` value: `v / 2^(w-i) mod 2^i`. -/
def topBits (w i v : Nat) : Nat :=
  v / 2 ^ (w - i) % 2 ^ i

/-- Greater-than accumulator value after comparing the top `i` bits. -/
def gtv (w i x y : Nat) : Nat :=
  if topBits w i y < topBits w i x then 1 else 0

/-- Equality accumulator value after comparing the top `i` bits. -/
def eqv (w i x y : Nat) : Nat :=
  if topBits w i x = topBits w i y then 1 else 0

/-- One top bit. -/
theorem topBits_one (w v : Nat) : topBits w 1 v = (v >>> (w - 1)) &&& 1 := by
  unfold topBits
  rw [Nat.shiftRight_eq_div_pow, Nat.and_one_is_mod, pow_one]

/-- All `w` top bits of a `w`-bit value. -/
theorem topBits_self (w v : Nat) (hv : v < 2 ^ w) : topBits w w v = v := by
  unfold topBits
  rw [Nat.sub_self, pow_zero, Nat.div_one, Nat.mod_eq_of_lt hv]

/-- Extending the top-bits window by one bit. -/
theorem topBits_succ (w i v : Nat) (hi : i + 1 ≤ w) :
    topBits w (i + 1) v = 2 * topBits w i v + ((v >>> (w - (i + 1))) &&& 1) := by
  unfold topBits
  rw [Nat.shiftRight_eq_div_pow, Nat.and_one_is_mod]
  have hsub : w - i = (w - (i + 1)) + 1 := by omega
  rw [hsub]
  rw [show (2 : Nat) ^ ((w - (i + 1)) + 1) = 2 ^ (w - (i + 1)) * 2 from
    pow_succ 2 _]
  rw [← Nat.div_div_eq_div_mul]
  rw [show (2 : Nat) ^ (i + 1) = 2 * 2 ^ i from by ring]
  rw [Nat.mod_mul]
  exact Nat.add_comm _ _

/-- First comparator iteration, greater-than bit: `xb AND NOT yb`. -/
theorem comparator_base_gt (xb yb : Nat) (hxb : xb ≤ 1) (hyb : yb ≤ 1) :
    (xb &&& (1 - yb)) &&& 1 = if yb < xb then 1 else 0 := by
  rcases Nat.le_one_iff_eq_zero_or_eq_one.mp hxb with h1 | h1 <;> subst h1 <;>
    rcases Nat.le_one_iff_eq_zero_or_eq_one.mp hyb with h2 | h2 <;> subst h2 <;>
      decide

/-- First comparator iteration, equality bit: `NOT (xb XOR yb)`. -/
theorem comparator_base_eq (xb yb : Nat) (hxb : xb ≤ 1) (hyb : yb ≤ 1) :
    1 - ((xb ^^^ yb) &&& 1) = if xb = yb then 1 else 0 := by
  rcases Nat.le_one_iff_eq_zero_or_eq_one.mp hxb with h1 | h1 <;> subst h1 <;>
    rcases Nat.le_one_iff_eq_zero_or_eq_one.mp hyb with h2 | h2 <;> subst h2 <;>
      decide

/-- Comparator step, greater-than: `OR(gt, AND(eq, xb AND NOT yb))` as
computed by the gate cascade equals the comparison of the extended windows. -/
theorem comparator_step_gt (w i x y xb yb : Nat) (hxb : xb ≤ 1) (hyb : yb ≤ 1) :
    (((gtv w i x y ^^^ ((eqv w i x y &&& ((xb &&& (1 - yb)) &&& 1)) &&& 1)) &&& 1) ^^^
      ((gtv w i x y &&& ((eqv w i x y &&& ((xb &&& (1 - yb)) &&& 1)) &&& 1)) &&&
        1)) &&& 1 =
      if 2 * topBits w i y + yb < 2 * topBits w i x + xb then 1 else 0 := by
  unfold gtv eqv
  generalize topBits w i x = X
  generalize topBits w i y = Y
  by_cases hlt : Y < X <;>
    by_cases heq : X = Y <;>
      by_cases hcond : 2 * Y + yb < 2 * X + xb <;>
        rcases Nat.le_one_iff_eq_zero_or_eq_one.mp hxb with h1 | h1 <;>
          subst h1 <;>
            rcases Nat.le_one_iff_eq_zero_or_eq_one.mp hyb with h2 | h2 <;>
              subst h2 <;>
                (first | rw [if_pos hlt] | rw [if_neg hlt]) <;>
                  (first | rw [if_pos heq] | rw [if_neg heq]) <;>
                    (first | rw [if_pos hcond] | rw [if_neg hcond]) <;>
                      first | decide | omega

/-- Comparator step, equality: `AND(eq, NOT (xb XOR yb))` equals equality of
the extended windows. -/
theorem comparator_step_eq (w i x y xb yb : Nat) (hxb : xb ≤ 1) (hyb : yb ≤ 1) :
    (eqv w i x y &&& (1 - ((xb ^^^ yb) &&& 1))) &&& 1 =
      if 2 * topBits w i x + xb = 2 * topBits w i y + yb then 1 else 0 := by
  unfold eqv
  generalize topBits w i x = X
  generalize topBits w i y = Y
  by_cases heq : X = Y <;>
    by_cases hcond : 2 * X + xb = 2 * Y + yb <;>
      rcases Nat.le_one_iff_eq_zero_or_eq_one.mp hxb with h1 | h1 <;>
        subst h1 <;>
          rcases Nat.le_one_iff_eq_zero_or_eq_one.mp hyb with h2 | h2 <;>
            subst h2 <;>
              (first | rw [if_pos heq] | rw [if_neg heq]) <;>
                (first | rw [if_pos hcond] | rw [if_neg hcond]) <;>
                  first | decide | omega

/-- Running an `AND` gate with populated inputs and an in-range output. -/
theorem plainRun_and_cons (ps : List (Option Nat)) (a b c x1 x2 : Nat)
    (rest : List GateDesc)
    (ha : ps.getD a none = some x1) (hb : ps.getD b none = some x2)
    (hc : c < ps.length) :
    plainRun (⟨GateType.And, a, b, c⟩ :: rest) ps =
      plainRun rest (ps.set c (some ((x1 &&& x2) &&& 1))) := by
  rw [plainRun_cons]
  simp only [plainStep, truth_table, ha, hb]
  rw [if_pos hc]

/-- Running a `XOR` gate with populated inputs and an in-range output. -/
theorem plainRun_xor_cons (ps : List (Option Nat)) (a b c x1 x2 : Nat)
    (rest : List GateDesc)
    (ha : ps.getD a none = some x1) (hb : ps.getD b none = some x2)
    (hc : c < ps.length) :
    plainRun (⟨GateType.Xor, a, b, c⟩ :: rest) ps =
      plainRun rest (ps.set c (some ((x1 ^^^ x2) &&& 1))) := by
  rw [plainRun_cons]
  simp only [plainStep, truth_table, ha, hb]
  rw [if_pos hc]

/-- Running a `NOT` gate with a populated input and an in-range output. -/
theorem plainRun_not_cons (ps : List (Option Nat)) (a b c x1 : Nat)
    (rest : List GateDesc)
    (ha : ps.getD a none = some x1) (hc : c < ps.length) :
    plainRun (⟨GateType.Not, a, b, c⟩ :: rest) ps =
      plainRun rest (ps.set c (some (1 - x1))) := by
  rw [plainRun_cons]
  simp only [plainStep, ha]
  rw [if_pos hc]

/-- Plain run of the four gates of the first comparator iteration. -/
theorem plainRun_iter4 (ps : List (Option Nat)) (n a b len xb yb : Nat)
    (rest : List GateDesc)
    (hlen : ps.length = len)
    (ha : ps.getD a none = some xb) (hb : ps.getD b none = some yb)
    (han : a < n) (hbn : b < n) (hn3 : n + 3 < len) :
    plainRun
        ([⟨GateType.Xor, a, b, n⟩, ⟨GateType.Not, n, 0, n + 1⟩,
          ⟨GateType.Not, b, 0, n + 2⟩, ⟨GateType.And, a, n + 2, n + 3⟩] ++ rest)
        ps =
      plainRun rest
        ((((ps.set n (some ((xb ^^^ yb) &&& 1))).set (n + 1)
          (some (1 - ((xb ^^^ yb) &&& 1)))).set (n + 2) (some (1 - yb))).set (n + 3)
          (some ((xb &&& (1 - yb)) &&& 1))) := by
  rw [List.cons_append, List.cons_append, List.cons_append, List.cons_append,
    List.nil_append]
  rw [plainRun_xor_cons ps a b n xb yb _ ha hb (by omega)]
  set p1 := ps.set n (some ((xb ^^^ yb) &&& 1)) with hp1
  have hp1len : p1.length = len := by
    rw [hp1]; simp only [List.length_set]; exact hlen
  have h1n : p1.getD n none = some ((xb ^^^ yb) &&& 1) := by
    rw [hp1]; exact getD_set_self _ _ _ _ (by omega)
  rw [plainRun_not_cons p1 n 0 (n + 1) ((xb ^^^ yb) &&& 1) _ h1n (by omega)]
  set p2 := p1.set (n + 1) (some (1 - ((xb ^^^ yb) &&& 1))) with hp2
  have hp2len : p2.length = len := by
    rw [hp2]; simp only [List.length_set]; exact hp1len
  have h2b : p2.getD b none = some yb := by
    rw [hp2, hp1, getD_set_ne _ _ _ _ _ (by omega), getD_set_ne _ _ _ _ _ (by omega)]
    exact hb
  rw [plainRun_not_cons p2 b 0 (n + 2) yb _ h2b (by omega)]
  set p3 := p2.set (n + 2) (some (1 - yb)) with hp3
  have hp3len : p3.length = len := by
    rw [hp3]; simp only [List.length_set]; exact hp2len
  have h3a : p3.getD a none = some xb := by
    rw [hp3, hp2, hp1, getD_set_ne _ _ _ _ _ (by omega),
      getD_set_ne _ _ _ _ _ (by omega), getD_set_ne _ _ _ _ _ (by omega)]
    exact ha
  have h3n2 : p3.getD (n + 2) none = some (1 - yb) := by
    rw [hp3]; exact getD_set_self _ _ _ _ (by omega)
  rw [plainRun_and_cons p3 a (n + 2) (n + 3) xb (1 - yb) _ h3a h3n2 (by omega)]

/-- Plain run of the nine gates of a non-first comparator iteration. -/
theorem plainRun_iter9 (ps : List (Option Nat)) (n a b gp ep len xb yb G E : Nat)
    (rest : List GateDesc)
    (hlen : ps.length = len)
    (ha : ps.getD a none = some xb) (hb : ps.getD b none = some yb)
    (hgp : ps.getD gp none = some G) (hep : ps.getD ep none = some E)
    (han : a < n) (hbn : b < n) (hgpn : gp < n) (hepn : ep < n)
    (hn8 : n + 8 < len) :
    plainRun
        ([⟨GateType.Xor, a, b, n⟩, ⟨GateType.Not, n, 0, n + 1⟩,
          ⟨GateType.Not, b, 0, n + 2⟩, ⟨GateType.And, a, n + 2, n + 3⟩,
          ⟨GateType.And, ep, n + 3, n + 4⟩, ⟨GateType.Xor, gp, n + 4, n + 5⟩,
          ⟨GateType.And, gp, n + 4, n + 6⟩, ⟨GateType.Xor, n + 5, n + 6, n + 7⟩,
          ⟨GateType.And, ep, n + 1, n + 8⟩] ++ rest) ps =
      plainRun rest
        (((((((((ps.set n (some ((xb ^^^ yb) &&& 1))).set (n + 1)
          (some (1 - ((xb ^^^ yb) &&& 1)))).set (n + 2) (some (1 - yb))).set (n + 3)
          (some ((xb &&& (1 - yb)) &&& 1))).set (n + 4)
          (some ((E &&& ((xb &&& (1 - yb)) &&& 1)) &&& 1))).set (n + 5)
          (some ((G ^^^ ((E &&& ((xb &&& (1 - yb)) &&& 1)) &&& 1)) &&& 1))).set (n + 6)
          (some ((G &&& ((E &&& ((xb &&& (1 - yb)) &&& 1)) &&& 1)) &&& 1))).set (n + 7)
          (some ((((G ^^^ ((E &&& ((xb &&& (1 - yb)) &&& 1)) &&& 1)) &&& 1) ^^^
            ((G &&& ((E &&& ((xb &&& (1 - yb)) &&& 1)) &&& 1)) &&& 1)) &&& 1))).set
          (n + 8) (some ((E &&& (1 - ((xb ^^^ yb) &&& 1))) &&& 1))) := by
  rw [List.cons_append, List.cons_append, List.cons_append, List.cons_append,
    List.cons_append, List.cons_append, List.cons_append, List.cons_append,
    List.cons_append, List.nil_append]
  rw [plainRun_xor_cons ps a b n xb yb _ ha hb (by omega)]
  set p1 := ps.set n (some ((xb ^^^ yb) &&& 1)) with hp1
  have hp1len : p1.length = len := by
    rw [hp1]; simp only [List.length_set]; exact hlen
  have h1n : p1.getD n none = some ((xb ^^^ yb) &&& 1) := by
    rw [hp1]; exact getD_set_self _ _ _ _ (by omega)
  rw [plainRun_not_cons p1 n 0 (n + 1) ((xb ^^^ yb) &&& 1) _ h1n (by omega)]
  set p2 := p1.set (n + 1) (some (1 - ((xb ^^^ yb) &&& 1))) with hp2
  have hp2len : p2.length = len := by
    rw [hp2]; simp only [List.length_set]; exact hp1len
  have h2b : p2.getD b none = some yb := by
    rw [hp2, hp1, getD_set_ne _ _ _ _ _ (by omega), getD_set_ne _ _ _ _ _ (by omega)]
    exact hb
  rw [plainRun_not_cons p2 b 0 (n + 2) yb _ h2b (by omega)]
  set p3 := p2.set (n + 2) (some (1 - yb)) with hp3
  have hp3len : p3.length = len := by
    rw [hp3]; simp only [List.length_set]; exact hp2len
  have h3a : p3.getD a none = some xb := by
    rw [hp3, hp2, hp1, getD_set_ne _ _ _ _ _ (by omega),
      getD_set_ne _ _ _ _ _ (by omega), getD_set_ne _ _ _ _ _ (by omega)]
    exact ha
  have h3n2 : p3.getD (n + 2) none = some (1 - yb) := by
    rw [hp3]; exact getD_set_self _ _ _ _ (by omega)
  rw [plainRun_and_cons p3 a (n + 2) (n + 3) xb (1 - yb) _ h3a h3n2 (by omega)]
  set p4 := p3.set (n + 3) (some ((xb &&& (1 - yb)) &&& 1)) with hp4
  have hp4len : p4.length = len := by
    rw [hp4]; simp only [List.length_set]; exact hp3len
  have h4ep : p4.getD ep none = some E := by
    rw [hp4, hp3, hp2, hp1, getD_set_ne _ _ _ _ _ (by omega),
      getD_set_ne _ _ _ _ _ (by omega), getD_set_ne _ _ _ _ _ (by omega),
      getD_set_ne _ _ _ _ _ (by omega)]
    exact hep
  have h4n3 : p4.getD (n + 3) none = some ((xb &&& (1 - yb)) &&& 1) := by
    rw [hp4]; exact getD_set_self _ _ _ _ (by omega)
  rw [plainRun_and_cons p4 ep (n + 3) (n + 4) E ((xb &&& (1 - yb)) &&& 1) _
    h4ep h4n3 (by omega)]
  set p5 := p4.set (n + 4) (some ((E &&& ((xb &&& (1 - yb)) &&& 1)) &&& 1)) with hp5
  have hp5len : p5.length = len := by
    rw [hp5]; simp only [List.length_set]; exact hp4len
  have h5gp : p5.getD gp none = some G := by
    rw [hp5, hp4, hp3, hp2, hp1, getD_set_ne _ _ _ _ _ (by omega),
      getD_set_ne _ _ _ _ _ (by omega), getD_set_ne _ _ _ _ _ (by omega),
      getD_set_ne _ _ _ _ _ (by omega), getD_set_ne _ _ _ _ _ (by omega)]
    exact hgp
  have h5n4 : p5.getD (n + 4) none =
      some ((E &&& ((xb &&& (1 - yb)) &&& 1)) &&& 1) := by
    rw [hp5]; exact getD_set_self _ _ _ _ (by omega)
  rw [plainRun_xor_cons p5 gp (n + 4) (n + 5) G
    ((E &&& ((xb &&& (1 - yb)) &&& 1)) &&& 1) _ h5gp h5n4 (by omega)]
  set p6 := p5.set (n + 5)
    (some ((G ^^^ ((E &&& ((xb &&& (1 - yb)) &&& 1)) &&& 1)) &&& 1)) with hp6
  have hp6len : p6.length = len := by
    rw [hp6]; simp only [List.length_set]; exact hp5len
  have h6gp : p6.getD gp none = some G := by
    rw [hp6, getD_set_ne _ _ _ _ _ (by omega)]
    exact h5gp
  have h6n4 : p6.getD (n + 4) none =
      some ((E &&& ((xb &&& (1 - yb)) &&& 1)) &&& 1) := by
    rw [hp6, getD_set_ne _ _ _ _ _ (by omega)]
    exact h5n4
  rw [plainRun_and_cons p6 gp (n + 4) (n + 6) G
    ((E &&& ((xb &&& (1 - yb)) &&& 1)) &&& 1) _ h6gp h6n4 (by omega)]
  set p7 := p6.set (n + 6)
    (some ((G &&& ((E &&& ((xb &&& (1 - yb)) &&& 1)) &&& 1)) &&& 1)) with hp7
  have hp7len : p7.length = len := by
    rw [hp7]; simp only [List.length_set]; exact hp6len
  have h7n5 : p7.getD (n + 5) none =
      some ((G ^^^ ((E &&& ((xb &&& (1 - yb)) &&& 1)) &&& 1)) &&& 1) := by
    rw [hp7, getD_set_ne _ _ _ _ _ (by omega), hp6]
    exact getD_set_self _ _ _ _ (by omega)
  have h7n6 : p7.getD (n + 6) none =
      some ((G &&& ((E &&& ((xb &&& (1 - yb)) &&& 1)) &&& 1)) &&& 1) := by
    rw [hp7]; exact getD_set_self _ _ _ _ (by omega)
  rw [plainRun_xor_cons p7 (n + 5) (n + 6) (n + 7)
    ((G ^^^ ((E &&& ((xb &&& (1 - yb)) &&& 1)) &&& 1)) &&& 1)
    ((G &&& ((E &&& ((xb &&& (1 - yb)) &&& 1)) &&& 1)) &&& 1) _ h7n5 h7n6 (by omega)]
  set p8 := p7.set (n + 7)
    (some ((((G ^^^ ((E &&& ((xb &&& (1 - yb)) &&& 1)) &&& 1)) &&& 1) ^^^
      ((G &&& ((E &&& ((xb &&& (1 - yb)) &&& 1)) &&& 1)) &&& 1)) &&& 1)) with hp8
  have hp8len : p8.length = len := by
    rw [hp8]; simp only [List.length_set]; exact hp7len
  have h8ep : p8.getD ep none = some E := by
    rw [hp8, hp7, hp6, hp5, getD_set_ne _ _ _ _ _ (by omega),
      getD_set_ne _ _ _ _ _ (by omega), getD_set_ne _ _ _ _ _ (by omega),
      getD_set_ne _ _ _ _ _ (by omega)]
    exact h4ep
  have h8n1 : p8.getD (n + 1) none = some (1 - ((xb ^^^ yb) &&& 1)) := by
    rw [hp8, hp7, hp6, hp5, hp4, hp3, getD_set_ne _ _ _ _ _ (by omega),
      getD_set_ne _ _ _ _ _ (by omega), getD_set_ne _ _ _ _ _ (by omega),
      getD_set_ne _ _ _ _ _ (by omega), getD_set_ne _ _ _ _ _ (by omega),
      getD_set_ne _ _ _ _ _ (by omega), hp2]
    exact getD_set_self _ _ _ _ (by omega)
  rw [plainRun_and_cons p8 ep (n + 1) (n + 8) E (1 - ((xb ^^^ yb) &&& 1)) _
    h8ep h8n1 (by omega)]

/-- Running no gates returns the state. -/
theorem plainRun_nil (ps : List (Option Nat)) : plainRun [] ps = some ps := rfl

/-- Plain evaluation of the comparator after `i` saturation-free iterations:
the run succeeds, input wires are untouched, and the accumulator wires hold
the top-`i`-bits comparison of `x` and `y`. -/
theorem millRun (w x y len : Nat) (hw1 : 1 ≤ w) (hw : w ≤ 16383) :
    ∀ i, 1 ≤ i → i ≤ w → 2 * w + (9 * i - 5) ≤ 65535 →
      2 * w + (9 * i - 5) ≤ len →
    ∃ ps, plainRun (millState w i).1.gates (plainInit len w x y) = some ps ∧
      ps.length = len ∧
      (∀ v, v < 2 * w → ps.getD v none = (plainInit len w x y).getD v none) ∧
      ps.getD (if i = 1 then 2 * w + 3 else 2 * w + (9 * i - 7)) none =
        some (gtv w i x y) ∧
      ps.getD (if i = 1 then 2 * w + 1 else 2 * w + (9 * i - 6)) none =
        some (eqv w i x y) := by
  intro i
  induction i with
  | zero => intro h1 _ _ _; omega
  | succ i ih =>
    intro h1 h2 hsat hlen
    by_cases hi0 : i = 0
    · -- first iteration
      subst hi0
      have hmod : (w * 2) % 65536 = w * 2 := by omega
      have hmod2 : (w * 2) % 65536 = 2 * w := by omega
      have hstep := millStep_first w ⟨[], (w * 2) % 65536⟩ (w - 1)
        (by simp only [hmod]; omega)
      have hstate : millState w 1 = millStep w ⟨[], (w * 2) % 65536⟩ (none, none)
          (w - 1) := rfl
      have hbit1 : (w - 1) % 65536 = w - 1 := by omega
      have hbitb1 : (w - 1 + w) % 65536 = w - 1 + w := by omega
      have hmin : min ((w * 2) % 65536 + 4) 65535 = 2 * w + 4 := by omega
      have hgates1 : (millState w 1).1.gates =
          [⟨GateType.Xor, w - 1, w - 1 + w, 2 * w⟩,
           ⟨GateType.Not, 2 * w, 0, 2 * w + 1⟩,
           ⟨GateType.Not, w - 1 + w, 0, 2 * w + 2⟩,
           ⟨GateType.And, w - 1, 2 * w + 2, 2 * w + 3⟩] := by
        rw [hstate, hstep]
        dsimp only
        rw [hbit1, hbitb1, hmod2]
        simp only [List.nil_append]
      have hA1 : (plainInit len w x y).getD (w - 1) none =
          some ((x >>> (w - 1)) &&& 1) := by
        rw [plainInit_getD _ _ _ _ _ (by omega), if_pos (by omega)]
      have hB1 : (plainInit len w x y).getD (w - 1 + w) none =
          some ((y >>> (w - 1)) &&& 1) := by
        rw [plainInit_getD _ _ _ _ _ (by omega), if_neg (by omega),
          if_pos (by omega), show w - 1 + w - w = w - 1 from by omega]
      have hsplit : plainRun (millState w 1).1.gates (plainInit len w x y) =
          plainRun ([⟨GateType.Xor, w - 1, w - 1 + w, 2 * w⟩,
            ⟨GateType.Not, 2 * w, 0, 2 * w + 1⟩,
            ⟨GateType.Not, w - 1 + w, 0, 2 * w + 2⟩,
            ⟨GateType.And, w - 1, 2 * w + 2, 2 * w + 3⟩] ++ [])
            (plainInit len w x y) := by
        rw [hgates1, List.append_nil]
      rw [plainRun_iter4 (plainInit len w x y) (2 * w) (w - 1) (w - 1 + w) len
        ((x >>> (w - 1)) &&& 1) ((y >>> (w - 1)) &&& 1) []
        (plainInit_length len w x y) hA1 hB1 (by omega) (by omega) (by omega),
        plainRun_nil] at hsplit
      refine ⟨_, hsplit, ?_, ?_, ?_, ?_⟩
      · simp only [List.length_set]
        exact plainInit_length len w x y
      · intro v hv
        rw [getD_set_ne _ _ _ _ _ (by omega), getD_set_ne _ _ _ _ _ (by omega),
          getD_set_ne _ _ _ _ _ (by omega), getD_set_ne _ _ _ _ _ (by omega)]
      · rw [if_pos rfl]
        rw [getD_set_self _ _ _ _
          (by simp only [List.length_set, plainInit_length]; omega)]
        rw [comparator_base_gt _ _ (and_one_le _) (and_one_le _)]
        have hgtv1 : gtv w (0 + 1) x y =
            if (y >>> (w - 1)) &&& 1 < (x >>> (w - 1)) &&& 1 then 1 else 0 := by
          unfold gtv
          simp only [Nat.zero_add]
          rw [topBits_one w x, topBits_one w y]
        rw [hgtv1]
      · rw [if_pos rfl]
        rw [getD_set_ne _ _ _ _ _ (by omega), getD_set_ne _ _ _ _ _ (by omega)]
        rw [getD_set_self _ _ _ _
          (by simp only [List.length_set, plainInit_length]; omega)]
        rw [comparator_base_eq _ _ (and_one_le _) (and_one_le _)]
        have heqv1 : eqv w (0 + 1) x y =
            if (x >>> (w - 1)) &&& 1 = (y >>> (w - 1)) &&& 1 then 1 else 0 := by
          unfold eqv
          simp only [Nat.zero_add]
          rw [topBits_one w x, topBits_one w y]
        rw [heqv1]
    · -- subsequent iteration
      have hgplt : (if i = 1 then 2 * w + 3 else 2 * w + (9 * i - 7)) <
          2 * w + (9 * i - 5) := by
        by_cases h : i = 1 <;> simp [h] <;> omega
      have heplt : (if i = 1 then 2 * w + 1 else 2 * w + (9 * i - 6)) <
          2 * w + (9 * i - 5) := by
        by_cases h : i = 1 <;> simp [h] <;> omega
      have harith7 : 2 * w + (9 * (i + 1) - 7) = 2 * w + (9 * i - 5) + 7 := by
        omega
      have harith8 : 2 * w + (9 * (i + 1) - 6) = 2 * w + (9 * i - 5) + 8 := by
        omega
      have hIH := ih (by omega) (by omega) (by omega) (by omega)
      obtain ⟨psi, hrun_i, hlen_i, hpres_i, hgt_i, heq_i⟩ := hIH
      obtain ⟨hglen, hnext, hacc, hwc, hwab⟩ :=
        millInv w hw1 hw i (by omega) (by omega) (by omega)
      set st := (millState w i).1 with hst
      set gp := (if i = 1 then 2 * w + 3 else 2 * w + (9 * i - 7)) with hgp
      set ep := (if i = 1 then 2 * w + 1 else 2 * w + (9 * i - 6)) with hep
      have hstate : millState w (i + 1) = millStep w st (some gp, some ep)
          (w - (i + 1)) := by
        show millStep w (millState w i).1 (millState w i).2 (w - (i + 1)) = _
        rw [hacc]
      have hstep := millStep_some w st gp ep (w - (i + 1)) (by rw [hnext]; omega)
      have hbit : (w - (i + 1)) % 65536 = w - (i + 1) := by omega
      have hbitb : (w - (i + 1) + w) % 65536 = w - (i + 1) + w := by omega
      have hgates : (millState w (i + 1)).1.gates =
          st.gates ++
            [⟨GateType.Xor, w - (i + 1), w - (i + 1) + w, 2 * w + (9 * i - 5)⟩,
             ⟨GateType.Not, 2 * w + (9 * i - 5), 0, 2 * w + (9 * i - 5) + 1⟩,
             ⟨GateType.Not, w - (i + 1) + w, 0, 2 * w + (9 * i - 5) + 2⟩,
             ⟨GateType.And, w - (i + 1), 2 * w + (9 * i - 5) + 2,
               2 * w + (9 * i - 5) + 3⟩,
             ⟨GateType.And, ep, 2 * w + (9 * i - 5) + 3, 2 * w + (9 * i - 5) + 4⟩,
             ⟨GateType.Xor, gp, 2 * w + (9 * i - 5) + 4, 2 * w + (9 * i - 5) + 5⟩,
             ⟨GateType.And, gp, 2 * w + (9 * i - 5) + 4, 2 * w + (9 * i - 5) + 6⟩,
             ⟨GateType.Xor, 2 * w + (9 * i - 5) + 5, 2 * w + (9 * i - 5) + 6,
               2 * w + (9 * i - 5) + 7⟩,
             ⟨GateType.And, ep, 2 * w + (9 * i - 5) + 1,
               2 * w + (9 * i - 5) + 8⟩] := by
        rw [hstate, hstep]
        dsimp only
        rw [hnext, hbit, hbitb]
      have hA : psi.getD (w - (i + 1)) none =
          some ((x >>> (w - (i + 1))) &&& 1) := by
        rw [hpres_i _ (by omega), plainInit_getD _ _ _ _ _ (by omega),
          if_pos (by omega)]
      have hB : psi.getD (w - (i + 1) + w) none =
          some ((y >>> (w - (i + 1))) &&& 1) := by
        rw [hpres_i _ (by omega), plainInit_getD _ _ _ _ _ (by omega),
          if_neg (by omega), if_pos (by omega),
          show w - (i + 1) + w - w = w - (i + 1) from by omega]
      have hsplit : plainRun (millState w (i + 1)).1.gates (plainInit len w x y) =
          plainRun
            ([⟨GateType.Xor, w - (i + 1), w - (i + 1) + w, 2 * w + (9 * i - 5)⟩,
              ⟨GateType.Not, 2 * w + (9 * i - 5), 0, 2 * w + (9 * i - 5) + 1⟩,
              ⟨GateType.Not, w - (i + 1) + w, 0, 2 * w + (9 * i - 5) + 2⟩,
              ⟨GateType.And, w - (i + 1), 2 * w + (9 * i - 5) + 2,
                2 * w + (9 * i - 5) + 3⟩,
              ⟨GateType.And, ep, 2 * w + (9 * i - 5) + 3,
                2 * w + (9 * i - 5) + 4⟩,
              ⟨GateType.Xor, gp, 2 * w + (9 * i - 5) + 4,
                2 * w + (9 * i - 5) + 5⟩,
              ⟨GateType.And, gp, 2 * w + (9 * i - 5) + 4,
                2 * w + (9 * i - 5) + 6⟩,
              ⟨GateType.Xor, 2 * w + (9 * i - 5) + 5, 2 * w + (9 * i - 5) + 6,
                2 * w + (9 * i - 5) + 7⟩,
              ⟨GateType.And, ep, 2 * w + (9 * i - 5) + 1,
                2 * w + (9 * i - 5) + 8⟩] ++ []) psi := by
        rw [hgates, plainRun_append, hrun_i, List.append_nil]
      rw [plainRun_iter9 psi (2 * w + (9 * i - 5)) (w - (i + 1)) (w - (i + 1) + w)
        gp ep len ((x >>> (w - (i + 1))) &&& 1) ((y >>> (w - (i + 1))) &&& 1)
        (gtv w i x y) (eqv w i x y) [] hlen_i hA hB hgt_i heq_i (by omega)
        (by omega) hgplt heplt (by omega), plainRun_nil] at hsplit
      refine ⟨_, hsplit, ?_, ?_, ?_, ?_⟩
      · simp only [List.length_set]
        exact hlen_i
      · intro v hv
        rw [getD_set_ne _ _ _ _ _ (by omega), getD_set_ne _ _ _ _ _ (by omega),
          getD_set_ne _ _ _ _ _ (by omega), getD_set_ne _ _ _ _ _ (by omega),
          getD_set_ne _ _ _ _ _ (by omega), getD_set_ne _ _ _ _ _ (by omega),
          getD_set_ne _ _ _ _ _ (by omega), getD_set_ne _ _ _ _ _ (by omega),
          getD_set_ne _ _ _ _ _ (by omega)]
        exact hpres_i v hv
      · rw [if_neg (by omega), harith7]
        rw [getD_set_ne _ _ _ _ _ (by omega)]
        rw [getD_set_self _ _ _ _ (by simp only [List.length_set]; omega)]
        rw [comparator_step_gt w i x y _ _ (and_one_le _) (and_one_le _)]
        have hgtv2 : gtv w (i + 1) x y =
            if 2 * topBits w i y + ((y >>> (w - (i + 1))) &&& 1) <
                2 * topBits w i x + ((x >>> (w - (i + 1))) &&& 1) then 1
            else 0 := by
          unfold gtv
          rw [topBits_succ w i x (by omega), topBits_succ w i y (by omega)]
        rw [hgtv2]
      · rw [if_neg (by omega), harith8]
        rw [getD_set_self _ _ _ _ (by simp only [List.length_set]; omega)]
        rw [comparator_step_eq w i x y _ _ (and_one_le _) (and_one_le _)]
        have heqv2 : eqv w (i + 1) x y =
            if 2 * topBits w i x + ((x >>> (w - (i + 1))) &&& 1) =
                2 * topBits w i y + ((y >>> (w - (i + 1))) &&& 1) then 1
            else 0 := by
          unfold eqv
          rw [topBits_succ w i x (by omega), topBits_succ w i y (by omega)]
        rw [heqv2]

/-- Bob's evaluation labels, selected from the two offers per wire by the
little-endian bits of `y` (the selection rule of the protocol). -/
def bobChosen (seed cid : List Nat) (iid w y : Nat) : List (List Nat) :=
  ((u64_to_bits_le y w).zip (derive_bob_label_offers seed cid iid w)).map
    (fun p => if p.1 = 1 then p.2.2 else p.2.1)

/-- Alice's label list has one label per bit. -/
theorem derive_alice_length (seed cid : List Nat) (iid w x : Nat) :
    (derive_alice_input_labels seed cid iid w x).length = w := by
  simp [derive_alice_input_labels]

/-- Alice's label `j` is the derived label of wire `j` for the wrapped-shift
bit `j` of `x`. -/
theorem derive_alice_getD (seed cid : List Nat) (iid w x j : Nat) (hj : j < w) :
    (derive_alice_input_labels seed cid iid w x).getD j [] =
      derive_wire_label cid iid j ((x >>> (j % 64)) &&& 1) seed := by
  unfold derive_alice_input_labels
  rw [map_range_getD _ _ _ _ hj]

/-- Bob's chosen label list has one label per bit. -/
theorem bobChosen_length (seed cid : List Nat) (iid w y : Nat) :
    (bobChosen seed cid iid w y).length = w := by
  unfold bobChosen u64_to_bits_le derive_bob_label_offers
  rw [List.zip_map' _ _ _, List.map_map]
  simp

/-- Bob's chosen label `j` is the derived label of wire `w + j` for the
wrapped-shift bit `j` of `y`. -/
theorem bobChosen_getD (seed cid : List Nat) (iid w y j : Nat) (hj : j < w) :
    (bobChosen seed cid iid w y).getD j [] =
      derive_wire_label cid iid (w + j) ((y >>> (j % 64)) &&& 1) seed := by
  unfold bobChosen u64_to_bits_le derive_bob_label_offers
  rw [List.zip_map' _ _ _, List.map_map]
  rw [map_range_getD _ _ _ _ hj]
  simp only [Function.comp_apply]
  rcases Nat.le_one_iff_eq_zero_or_eq_one.mp (and_one_le (y >>> (j % 64))) with
    h | h <;> rw [h]
  · rw [if_neg (by omega)]
  · rw [if_pos rfl]

/-- Reading any slot of an all-empty wire map gives `none`. -/
theorem getD_replicate_none {α : Type} (n i : Nat) :
    (List.replicate n (none : Option α)).getD i none = none := by
  by_cases h : i < n
  · rw [List.getD_eq_getElem?_getD, List.getElem?_replicate]
    simp [h]
  · exact List.getD_eq_default _ _ (by simp only [List.length_replicate]; omega)

set_option maxHeartbeats 1000000 in
/-- The evaluator on canonical garbled leaves, input labels and hints tracks
the plain bit-level run: it returns exactly the derived label of the output
wire for the plain output bit. -/
theorem evaluate_tracks_plain (cid seed : List Nat)
    (iid w x y xe ye len ow outb : Nat)
    (gates : List GateDesc) (ps2 : List (Option Nat))
    (hmw : maxWireFold gates ((2 * w - 1) % 65536) + 1 = len)
    (h2w : 2 * w ≤ len)
    (hxe : ∀ j, j < w → (x >>> (j % 64)) &&& 1 = (xe >>> j) &&& 1)
    (hye : ∀ j, j < w → (y >>> (j % 64)) &&& 1 = (ye >>> j) &&& 1)
    (hrun : plainRun gates (plainInit len w xe ye) = some ps2)
    (hout : ps2.getD ow none = some outb) :
    evaluate_garbled_circuit ⟨cid, iid, gates⟩
      (garble_circuit seed ⟨cid, iid, gates⟩)
      (derive_alice_input_labels seed cid iid w x)
      (bobChosen seed cid iid w y)
      (derive_not_gate_hints seed ⟨cid, iid, gates⟩) ow =
      .ok (derive_wire_label cid iid ow outb seed) := by
  have halen : (derive_alice_input_labels seed cid iid w x).length = w :=
    derive_alice_length seed cid iid w x
  have hblen : (bobChosen seed cid iid w y).length = w :=
    bobChosen_length seed cid iid w y
  have hllen : (garble_circuit seed ⟨cid, iid, gates⟩).length = gates.length :=
    garble_circuit_length seed ⟨cid, iid, gates⟩
  unfold evaluate_garbled_circuit
  dsimp only
  rw [if_neg (by rw [hllen]; exact fun hc => hc rfl)]
  rw [if_neg (by rw [hblen, halen]; exact fun hc => hc rfl)]
  rw [halen]
  have hfold : List.foldl (fun m g => max (max (max m g.wire_a) g.wire_b) g.wire_c)
      ((2 * w - 1) % 65536) gates + 1 = len := hmw
  rw [hfold]
  obtain ⟨wl1, hp1, hlen1, hget1⟩ := populateFrom_getD
    (derive_alice_input_labels seed cid iid w x) (List.replicate len none) 0
    (by simp only [List.length_replicate]; rw [halen]; omega)
  obtain ⟨wl2, hp2, hlen2, hget2⟩ := populateFrom_getD
    (bobChosen seed cid iid w y) wl1 w
    (by rw [hlen1]; simp only [List.length_replicate]; rw [hblen]; omega)
  rw [hp1, ok_bind, hp2, ok_bind]
  have hwl2len : wl2.length = len := by
    rw [hlen2, hlen1]
    simp
  have hrel : Rel cid iid seed wl2 (plainInit len w xe ye) := by
    refine ⟨by rw [hwl2len, plainInit_length], ?_⟩
    intro v
    by_cases hvlen : v < len
    · by_cases hv1 : v < w
      · have hw2 : wl2.getD v none =
            some (derive_wire_label cid iid v ((xe >>> v) &&& 1) seed) := by
          rw [hget2 v, if_neg (by intro hc; omega)]
          rw [hget1 v, if_pos ⟨by omega, by rw [halen]; omega⟩]
          rw [Nat.sub_zero, derive_alice_getD seed cid iid w x v hv1]
          rw [hxe v hv1]
        constructor
        · intro h
          rw [plainInit_getD _ _ _ _ _ hvlen, if_pos hv1] at h
          cases h
        · intro b h
          rw [plainInit_getD _ _ _ _ _ hvlen, if_pos hv1] at h
          have hb := Option.some.inj h
          subst hb
          exact ⟨and_one_le _, hw2⟩
      · by_cases hv2 : v < 2 * w
        · have hw2 : wl2.getD v none =
              some (derive_wire_label cid iid v ((ye >>> (v - w)) &&& 1) seed) := by
            rw [hget2 v, if_pos ⟨by omega, by rw [hblen]; omega⟩]
            rw [bobChosen_getD seed cid iid w y (v - w) (by omega)]
            rw [hye (v - w) (by omega)]
            rw [show w + (v - w) = v from by omega]
          constructor
          · intro h
            rw [plainInit_getD _ _ _ _ _ hvlen, if_neg hv1, if_pos hv2] at h
            cases h
          · intro b h
            rw [plainInit_getD _ _ _ _ _ hvlen, if_neg hv1, if_pos hv2] at h
            have hb := Option.some.inj h
            subst hb
            exact ⟨and_one_le _, hw2⟩
        · have hw2 : wl2.getD v none = none := by
            rw [hget2 v, if_neg (by intro hc; rw [hblen] at hc; omega)]
            rw [hget1 v, if_neg (by intro hc; rw [halen] at hc; omega)]
            exact getD_replicate_none len v
          constructor
          · intro _
            exact hw2
          · intro b h
            rw [plainInit_getD _ _ _ _ _ hvlen, if_neg hv1, if_neg hv2] at h
            cases h
    · have hw2 : wl2.getD v none = none := by
        rw [hget2 v, if_neg (by intro hc; rw [hblen] at hc; omega)]
        rw [hget1 v, if_neg (by intro hc; rw [halen] at hc; omega)]
        exact getD_replicate_none len v
      constructor
      · intro _
        exact hw2
      · intro b h
        rw [List.getD_eq_default _ _ (by rw [plainInit_length]; omega)] at h
        cases h
  obtain ⟨wl3, hev, hrel3⟩ := evalGates_correct cid seed iid
    (garble_circuit seed ⟨cid, iid, gates⟩)
    (derive_not_gate_hints seed ⟨cid, iid, gates⟩) gates 0 wl2
    (plainInit len w xe ye) ps2 hrel
    (fun j hj => by
      have h := garbleAux_getD seed cid iid gates 0 j hj
      rw [Nat.zero_add] at h
      rw [Nat.zero_add]
      exact h)
    (fun j hj hg => notHints_find cid iid seed gates 0 j hj hg)
    hrun
  rw [hev, ok_bind]
  have hps2len : ps2.length = len := by
    rw [plainRun_length gates _ ps2 hrun, plainInit_length]
  have howlt : ow < wl3.length := by
    have h1 := getD_some_lt _ _ _ hout
    have h2 := hrel3.1
    omega
  rw [if_pos howlt]
  obtain ⟨hble, hlab⟩ := (hrel3.2 ow).2 outb hout
  rw [hlab]

/-- The wire-map sizing fold over the saturation-free comparator layout
reaches exactly the last allocated wire `11*w - 6`. -/
theorem maxWire_millionaires (w : Nat) (hw1 : 1 ≤ w) (hw : w ≤ 5958) :
    maxWireFold (build_millionaires_layout w) ((2 * w - 1) % 65536) =
      11 * w - 6 := by
  obtain ⟨hglen, hnext, hacc, hwc, hwab⟩ :=
    millInv w hw1 (by omega) w hw1 (Nat.le_refl _) (by omega)
  rw [build_eq_millState]
  refine Nat.le_antisymm ?_ ?_
  · refine maxWireFold_le _ _ _ (by omega) ?_
    intro g hg
    obtain ⟨k, hk, hgk⟩ := List.mem_iff_getElem.mp hg
    have hgd : (millState w w).1.gates.getD k dummyGate = g := by
      rw [List.getD_eq_getElem _ _ hk]
      exact hgk
    rw [hglen] at hk
    have h1 := hwc k hk
    have h2 := hwab k hk
    rw [hgd] at h1 h2
    omega
  · have hk : 9 * w - 6 < (millState w w).1.gates.length := by
      rw [hglen]; omega
    have hmem : (millState w w).1.gates.getD (9 * w - 6) dummyGate ∈
        (millState w w).1.gates := by
      rw [List.getD_eq_getElem _ _ hk]
      exact List.getElem_mem hk
    have hge := maxWireFold_ge_mem _ ((2 * w - 1) % 65536) _ hmem
    have hwcl := hwc (9 * w - 6) (by omega)
    omega

/-- Closed form of the greater-than output wire of the comparator layout. -/
theorem gt_output_wire (w : Nat) (hw1 : 1 ≤ w) (hw : w ≤ 5958) :
    millionaires_gt_output_wire (build_millionaires_layout w) w =
      .ok (if w = 1 then 2 * w + 3 else 2 * w + (9 * w - 7)) := by
  obtain ⟨hglen, hnext, hacc, hwc, hwab⟩ :=
    millInv w hw1 (by omega) w hw1 (Nat.le_refl _) (by omega)
  rw [build_eq_millState]
  unfold millionaires_gt_output_wire
  rw [if_neg (by
    intro hc
    rw [List.isEmpty_iff] at hc
    rw [hc] at hglen
    simp only [List.length_nil] at hglen
    omega)]
  have hdum : (⟨GateType.And, 0, 0, 0⟩ : GateDesc) = dummyGate := rfl
  by_cases hw1' : w = 1
  · rw [if_pos hw1', if_pos hw1']
    subst hw1'
    have hl4 : (millState 1 1).1.gates.length = 4 := by rw [hglen]
    rw [hl4, show (4 : Nat) - 1 = 3 from rfl, hdum]
    have hwcl := hwc 3 (by rw [show 9 * 1 - 5 = 4 from rfl]; omega)
    rw [hwcl]
  · rw [if_neg hw1', if_neg hw1']
    rw [if_neg (by rw [hglen]; omega)]
    rw [hglen, show 9 * w - 5 - 2 = 9 * w - 7 from by omega, hdum]
    rw [hwc (9 * w - 7) (by omega)]

/-- C1 (amended to the `u64`-faithful widths `1 ≤ w ≤ 64`): garbling the
comparator layout and evaluating it with Alice's labels for `x`, Bob's
offer-selected labels for the little-endian bits of `y`, the derived NOT
hints and the `millionaires_gt_output_wire` output wire returns `Ok` of
exactly the output-wire label for semantic bit 1 when `x > y` and for
semantic bit 0 when `x ≤ y`. -/
theorem claim_C1 (w x y iid ow : Nat) (cid seed : List Nat)
    (hw1 : 1 ≤ w) (hw : w ≤ 64) (hx : x < 2 ^ w) (hy : y < 2 ^ w)
    (how : millionaires_gt_output_wire (build_millionaires_layout w) w = .ok ow) :
    evaluate_garbled_circuit ⟨cid, iid, build_millionaires_layout w⟩
      (garble_circuit seed ⟨cid, iid, build_millionaires_layout w⟩)
      (derive_alice_input_labels seed cid iid w x)
      (bobChosen seed cid iid w y)
      (derive_not_gate_hints seed ⟨cid, iid, build_millionaires_layout w⟩) ow =
      .ok (derive_wire_label cid iid ow (if y < x then 1 else 0) seed) := by
  have hw' : w ≤ 5958 := by omega
  have hown : ow = if w = 1 then 2 * w + 3 else 2 * w + (9 * w - 7) := by
    have h := gt_output_wire w hw1 hw'
    rw [how] at h
    exact Except.ok.inj h
  obtain ⟨ps2, hrun, hlen2, hpres, hgt, heq⟩ :=
    millRun w x y (11 * w - 5) hw1 (by omega) w hw1 (Nat.le_refl _) (by omega)
      (by omega)
  rw [← build_eq_millState] at hrun
  have hgtv : gtv w w x y = if y < x then 1 else 0 := by
    unfold gtv
    rw [topBits_self w x hx, topBits_self w y hy]
  refine evaluate_tracks_plain cid seed iid w x y x y (11 * w - 5) ow
    (if y < x then 1 else 0) (build_millionaires_layout w) ps2 ?_ (by omega)
    (fun j hj => by rw [Nat.mod_eq_of_lt (by omega)])
    (fun j hj => by rw [Nat.mod_eq_of_lt (by omega)])
    hrun ?_
  · rw [maxWire_millionaires w hw1 hw']
    omega
  · rw [hown, hgt, hgtv]

/-- Witness for C1 at width 1 with `x = 1 > y = 0`: the hypotheses hold at
the concrete input and the evaluator returns the semantic-1 output label. -/
theorem claim_C1_witness :
    (1 : Nat) ≤ 1 ∧ (1 : Nat) ≤ 64 ∧ 1 < 2 ^ 1 ∧ 0 < 2 ^ 1 ∧
    millionaires_gt_output_wire (build_millionaires_layout 1) 1 = .ok 5 ∧
    evaluate_garbled_circuit ⟨[], 0, build_millionaires_layout 1⟩
      (garble_circuit [] ⟨[], 0, build_millionaires_layout 1⟩)
      (derive_alice_input_labels [] [] 0 1 1)
      (bobChosen [] [] 0 1 0)
      (derive_not_gate_hints [] ⟨[], 0, build_millionaires_layout 1⟩) 5 =
      .ok (derive_wire_label [] 0 5 (if 0 < 1 then 1 else 0) []) :=
  ⟨by decide, by decide, by decide, by decide, rfl,
    claim_C1 1 1 0 0 5 [] [] (by decide) (by decide) (by decide) (by decide) rfl⟩

/-- C1 counterexample at width 65 with `x = 1`, `y = 2 ^ 63`: bit index 64
wraps through the `u64` shift to bit 0, so Alice's labels encode the aliased
value `2 ^ 64 + 1 > y` and the evaluator returns the semantic-1 label even
though `x ≤ y` (a debug build panics at the overflowing shift instead). -/
theorem claim_C1_counterexample :
    millionaires_gt_output_wire (build_millionaires_layout 65) 65 = .ok 708 ∧
    (1 : Nat) < 2 ^ 65 ∧ (2 ^ 63 : Nat) < 2 ^ 65 ∧ ¬ ((2 ^ 63 : Nat) < 1) ∧
    evaluate_garbled_circuit ⟨zero32, 0, build_millionaires_layout 65⟩
      (garble_circuit zero32 ⟨zero32, 0, build_millionaires_layout 65⟩)
      (derive_alice_input_labels zero32 zero32 0 65 1)
      (bobChosen zero32 zero32 0 65 (2 ^ 63))
      (derive_not_gate_hints zero32 ⟨zero32, 0, build_millionaires_layout 65⟩)
      708 ≠
      .ok (derive_wire_label zero32 0 708 (if 2 ^ 63 < 1 then 1 else 0)
        zero32) := by
  have how : millionaires_gt_output_wire (build_millionaires_layout 65) 65 =
      .ok 708 := by
    have h := gt_output_wire 65 (by norm_num) (by norm_num)
    rw [if_neg (by norm_num),
      show 2 * 65 + (9 * 65 - 7) = 708 from by norm_num] at h
    exact h
  refine ⟨how, by norm_num, by norm_num, by norm_num, ?_⟩
  obtain ⟨ps2, hrun, hlen2, hpres, hgt, heq⟩ :=
    millRun 65 (2 ^ 64 + 1) (2 ^ 63) 710 (by norm_num) (by norm_num)
      65 (by norm_num) (Nat.le_refl _) (by norm_num) (by norm_num)
  rw [← build_eq_millState] at hrun
  have hgtv : gtv 65 65 (2 ^ 64 + 1) (2 ^ 63) = 1 := by
    unfold gtv
    rw [topBits_self 65 (2 ^ 64 + 1) (by norm_num),
      topBits_self 65 (2 ^ 63) (by norm_num)]
    rw [if_pos (by norm_num)]
  have heval := evaluate_tracks_plain zero32 zero32 0 65 1 (2 ^ 63)
    (2 ^ 64 + 1) (2 ^ 63) 710 708 1 (build_millionaires_layout 65) ps2
    (by rw [maxWire_millionaires 65 (by norm_num) (by norm_num)])
    (by norm_num) (by decide) (by decide) hrun
    (by
      rw [if_neg (by norm_num),
        show 2 * 65 + (9 * 65 - 7) = 708 from by norm_num] at hgt
      rw [hgt, hgtv])
  intro hc
  rw [heval, if_neg (by norm_num)] at hc
  exact label_ne zero32 zero32 0 708 1 0 (by omega) (by omega) (by omega)
    (Except.ok.inj hc)

end Yao
